import Mathlib

/-!
# Banded SIMD pair-HMM aligner: shallow embedding

A verification development of the banded pair-HMM aligner of
`src/core/models/pairhmm/simd_pair_hmm.hpp` (octopus).  The generic
`PairHMM<InstructionSetPolicy>::align` overloads are transcribed over a
portable scalar model of the vector backend: a vector is a list of
`bandSize` lanes, each lane a 16-bit pattern held as a `Nat < 65536`.

The instruction-set policy itself (SSE2/AVX2 backend) is not part of the
sources; its operations are modelled from the specification's vector
backend contract (§4.1), which licenses a portable scalar reference
implementation with identical lane semantics.
-/

namespace PairHMM

/-- Number of 16-bit lanes of the vector type (`band_size` in the source;
8 for the 128-bit backend, 16 for the 256-bit backend). -/
abbrev Vec := List Nat

/-- `INFINITY = 0x7800` from the source. -/
def infScore : Nat := 0x7800

/-- `trace_bits = 2` from the source. -/
def traceBits : Nat := 2

/-- `n_score = 2 << trace_bits` from the source. -/
def nScore : Nat := 8

/-- `max_n_quality = 64` from the source. -/
def maxNQuality : Nat := 64

/-- `bitmask = 0x8000` from the source. -/
def bitmaskC : Nat := 0x8000

/-- `match_label = 0`. -/
def matchLabel : Nat := 0
/-- `insert_label = 1`. -/
def insertLabel : Nat := 1
/-- `delete_label = 3`. -/
def deleteLabel : Nat := 3

/-- `gap_label = '-'`. -/
def gapLabel : Nat := 45

/-- Signed interpretation of a 16-bit lane pattern. -/
def toInt16 (x : Nat) : Int :=
  if x < 32768 then (x : Int) else (x : Int) - 65536

/-- 16-bit pattern of an integer (two's-complement truncation), used when a
C++ `int`/`short` value is inserted into a 16-bit lane. -/
def ofInt16 (z : Int) : Nat := (z % 65536).toNat

/-- Lane-wise addition, wrapping at 16 bits (`_add`). -/
def add16 (a b : Nat) : Nat := (a + b) % 65536

/-- Lane-wise signed minimum (`_min`, SSE2 `_mm_min_epi16`). -/
def smin16 (a b : Nat) : Nat := if toInt16 a ≤ toInt16 b then a else b

/-- Lane-wise signed maximum (`_max`, SSE2 `_mm_max_epi16`). -/
def smax16 (a b : Nat) : Nat := if toInt16 a ≤ toInt16 b then b else a

/-- Lane-wise bitwise and (`_and`). -/
def and16 (a b : Nat) : Nat := Nat.land a b

/-- Lane-wise bitwise or (`_or`). -/
def or16 (a b : Nat) : Nat := Nat.lor a b

/-- Lane-wise and-not (`_andnot`, SSE2 `_mm_andnot_si128 a b = ~a & b`). -/
def andnot16 (a b : Nat) : Nat := Nat.land (Nat.xor a 65535) b

/-- Lane-wise compare-equal (`_cmpeq`): all-ones on equality, zero otherwise. -/
def cmpeq16 (a b : Nat) : Nat := if a = b then 65535 else 0

/-- Broadcast (`vectorise`): every lane holds the 16-bit pattern of `z`. -/
def vBroadcast (bs : Nat) (z : Int) : Vec := List.replicate bs (ofInt16 z)

/-- Modelled from the spec: `zero_with_last(x)` seeds a single lane with `x`
and zeroes the rest; the seeded lane is lane 0, the lane that the cross-lane
left shift moves upward so the seed collapses to zero after `B` half steps
(spec §4.1, §4.3).  Source name: `vectorise_zero_set_last`. -/
def vZeroSetLast (bs : Nat) (z : Int) : Vec :=
  ofInt16 z :: List.replicate (bs - 1) 0

/-- Modelled from the spec: `load_reverse(ptr)` loads the first `B` entries
so that lane `i` holds `ptr[i]` — the spec's "lanes ← ptr[B−1], …, ptr[0]"
enumerates the lanes from the top lane down (the SIMD set intrinsics take
their lane arguments high-to-low, so the source text lists `ptr[0]` last).
This orientation is forced by the recurrence: after `m` truth advances lane
`i` holds `ptr[i + m]`, so lanes pair with the target window along one
anti-diagonal.  Source name: `vectorise_reverse`. -/
def vLoadReverse (bs : Nat) (xs : List Nat) : Vec :=
  (List.range bs).map (fun i => xs.getD i 0)

/-- Modelled from the spec: `load_reverse_shifted(ptr, s)`: as `load_reverse`
with each lane left-shifted by `s` bits (spec §4.1).  Source name:
`vectorise_reverse_lshift`, applied to the per-position `std::int8_t`
penalty tables. -/
def vLoadReverseLshift (bs : Nat) (xs : List Int) (sh : Nat) : Vec :=
  (List.range bs).map (fun i => ofInt16 (xs.getD i 0 * 2 ^ sh))

/-- Modelled from the spec: cross-lane left shift by one score slot
(`shift_left_bytes<2>`, the source's `_left_shift<score_bytes>`): data moves
to higher lanes, lane 0 is zero-filled. -/
def vShiftUp (v : Vec) : Vec := 0 :: v.dropLast

/-- Modelled from the spec: cross-lane right shift by one score slot
(`shift_right_bytes<2>`, the source's `_right_shift<score_bytes>`): data
moves to lower lanes, the top lane is zero-filled. -/
def vShiftDown (v : Vec) : Vec := v.tail ++ [0]

/-- Modelled from the spec: per-lane right bit shift (`shift_right_bits<1>`,
the source's `_right_shift<1>`, applied only to the constant vector of 3s to
produce the insert tag constant 1; spec §4.3 fixes the reset tags to
`{0, 1, 3}`). -/
def vShiftRightBits1 (v : Vec) : Vec := v.map (fun x => x / 2)

/-- Per-lane left bit shift by `k` (`_left_shift_words<k>`, SSE2
`_mm_slli_epi16`), truncating at 16 bits. -/
def vShiftLeftBits (k : Nat) (v : Vec) : Vec := v.map (fun x => x * 2 ^ k % 65536)

/-- Lane access (`_extract`) at a runtime index.  Modelled from the spec's
backend contract: an index beyond the top lane reads the top lane (the
runtime-index dispatch of the SIMD backends clamps to the last case). -/
def vExtract (bs : Nat) (v : Vec) (i : Nat) : Nat := v.getD (min i (bs - 1)) 0

/-- Lane write (`_insert`). -/
def vInsert (v : Vec) (z : Int) (i : Nat) : Vec := v.set i (ofInt16 z)

/-- Lane-wise lift of a binary lane operation. -/
def vZip (f : Nat → Nat → Nat) (a b : Vec) : Vec := List.zipWith f a b

def vAdd (a b : Vec) : Vec := vZip add16 a b
def vMin (a b : Vec) : Vec := vZip smin16 a b
def vAnd (a b : Vec) : Vec := vZip and16 a b
def vOr (a b : Vec) : Vec := vZip or16 a b
def vAndnot (a b : Vec) : Vec := vZip andnot16 a b
def vCmpeq (a b : Vec) : Vec := vZip cmpeq16 a b

/-- Aligner inputs.  `truth`/`target` are byte sequences; `quals`, `gapOpen`,
`gapExtend` are the `std::int8_t` tables (per-position gap penalties, the
`OpenPenalty = const std::int8_t*` instantiation); `nucPrior` is the
`short` nucleotide prior.  `truthLen`/`targetLen` are the explicit length
arguments of `align`. -/
structure Args where
  bs : Nat
  truth : List Nat
  target : List Nat
  quals : List Int
  gapOpen : List Int
  gapExtend : List Int
  nucPrior : Int

/-- `truth_len` argument: the length of the truth byte range. -/
def Args.truthLen (a : Args) : Nat := a.truth.length

/-- `target_len` argument: the length of the target byte range. -/
def Args.targetLen (a : Args) : Nat := a.target.length

/-- The state of the score-only `align` overload's main loop: the six band
vectors, the sliding windows, the seed masks and the running minimum
(`minscore`, a signed `ScoreType` value). -/
@[ext]
structure SState where
  m1 : Vec
  i1 : Vec
  d1 : Vec
  m2 : Vec
  i2 : Vec
  d2 : Vec
  truthwin : Vec
  targetwin : Vec
  qualitieswin : Vec
  gapopen : Vec
  gapextend : Vec
  truthnqual : Vec
  initmask : Vec
  initmask2 : Vec
  minscore : Int

/-- `_nscore_m_inf = vectorise(n_score - infinity)` as a lane pattern. -/
def nScoreMInf : Nat := ofInt16 ((nScore : Int) - (infScore : Int))

/-- Initial state of the score-only overload (lines 95–105 of the source). -/
def initS (a : Args) : SState :=
  let inf : Vec := vBroadcast a.bs (infScore : Int)
  let truthwin := vLoadReverse a.bs a.truth
  { m1 := inf, i1 := inf, d1 := inf, m2 := inf, i2 := inf, d2 := inf
    truthwin := truthwin
    targetwin := inf
    qualitieswin := vBroadcast a.bs ((maxNQuality : Int) * 2 ^ traceBits)
    gapopen := vLoadReverseLshift a.bs a.gapOpen traceBits
    gapextend := vLoadReverseLshift a.bs a.gapExtend traceBits
    truthnqual := vAdd (vAnd (vCmpeq truthwin (vBroadcast a.bs 78)) (vBroadcast a.bs (toInt16 nScoreMInf))) inf
    initmask := vZeroSetLast a.bs (-1)
    initmask2 := vZeroSetLast a.bs (-(bitmaskC : Int))
    minscore := toInt16 infScore }

/-- The even half step of the score-only overload, iteration `k = s / 2`
(lines 107–127 of the source): advance the target window, seed the band,
fold the exit-column extraction into `minscore`, add the emission penalty,
and update the deletion and insertion vectors. -/
def stepEvenS (a : Args) (k : Nat) (st : SState) : SState :=
  let targetwin := vShiftUp st.targetwin
  let qualitieswin := vShiftUp st.qualitieswin
  let targetwin := if k < a.targetLen then vInsert targetwin (a.target.getD k 0 : Int) 0
                   else vInsert targetwin 48 0
  let qualitieswin := if k < a.targetLen then vInsert qualitieswin (a.quals.getD k 0 * 2 ^ traceBits) 0
                      else vInsert qualitieswin ((maxNQuality : Int) * 2 ^ traceBits) 0
  let m1 := vOr st.initmask2 (vAndnot st.initmask st.m1)
  let m2 := vOr st.initmask2 (vAndnot st.initmask st.m2)
  let m1 := vMin m1 (vMin st.i1 st.d1)
  let minscore := if a.targetLen ≤ k then
      min st.minscore (toInt16 (vExtract a.bs m1 (max 0 (k - a.targetLen))))
    else st.minscore
  let m1 := vAdd m1 (vMin (vAndnot (vCmpeq targetwin st.truthwin) qualitieswin) st.truthnqual)
  let d1 := vMin (vAdd st.d2 st.gapextend) (vAdd (vMin m2 st.i2) (vShiftDown st.gapopen))
  let d1 := vInsert (vShiftUp d1) (infScore : Int) 0
  let i1 := vAdd (vMin (vAdd st.i2 st.gapextend) (vAdd m2 st.gapopen)) (vBroadcast a.bs (a.nucPrior * 2 ^ traceBits))
  { st with m1 := m1, m2 := m2, i1 := i1, d1 := d1
            targetwin := targetwin, qualitieswin := qualitieswin, minscore := minscore }

/-- The odd half step of the score-only overload, iteration `k = s / 2`
(lines 129–147 of the source): advance the truth window and the penalty
windows, shift the seed masks, fold the exit-column extraction into
`minscore`, add the emission penalty, update deletion/insertion. -/
def stepOddS (a : Args) (k : Nat) (st : SState) : SState :=
  let pos := a.bs + k
  let posInRange := pos < a.truthLen
  let base : Nat := if posInRange then a.truth.getD pos 0 else 78
  let truthwin := vInsert (vShiftDown st.truthwin) (base : Int) (a.bs - 1)
  let truthnqual := vInsert (vShiftDown st.truthnqual)
      (if base = 78 then (nScore : Int) else (infScore : Int)) (a.bs - 1)
  let gapIdx := if posInRange then pos else a.truthLen - 1
  let gapopen := vInsert (vShiftDown st.gapopen) (a.gapOpen.getD gapIdx 0 * 2 ^ traceBits) (a.bs - 1)
  let gapextend := vInsert (vShiftDown st.gapextend) (a.gapExtend.getD gapIdx 0 * 2 ^ traceBits) (a.bs - 1)
  let initmask := vShiftUp st.initmask
  let initmask2 := vShiftUp st.initmask2
  let m2 := vMin st.m2 (vMin st.i2 st.d2)
  let minscore := if a.targetLen ≤ k then
      min st.minscore (toInt16 (vExtract a.bs m2 (k - a.targetLen)))
    else st.minscore
  let m2 := vAdd m2 (vMin (vAndnot (vCmpeq st.targetwin truthwin) st.qualitieswin) truthnqual)
  let d2 := vMin (vAdd st.d1 gapextend) (vAdd (vMin st.m1 st.i1) gapopen)
  let i2 := vInsert (vAdd (vMin (vAdd (vShiftDown st.i1) gapextend)
      (vAdd (vShiftDown st.m1) gapopen)) (vBroadcast a.bs (a.nucPrior * 2 ^ traceBits)))
      (infScore : Int) (a.bs - 1)
  { st with m2 := m2, i2 := i2, d2 := d2
            truthwin := truthwin, truthnqual := truthnqual
            gapopen := gapopen, gapextend := gapextend
            initmask := initmask, initmask2 := initmask2, minscore := minscore }

/-- One full iteration (`s` and `s + 1` half steps) of the score-only loop. -/
def stepS (a : Args) (k : Nat) (st : SState) : SState :=
  stepOddS a k (stepEvenS a k st)

/-- Run `n` iterations of the score-only loop starting at iteration `k`. -/
def runS : (a : Args) → (k n : Nat) → SState → SState
  | _, _, 0, st => st
  | a, k, n + 1, st => runS a (k + 1) n (stepS a k st)

/-- The loop bound: `for (s = 0; s <= 2*(target_len + band_size); s += 2)`
runs `target_len + band_size + 1` iterations. -/
def iterCount (a : Args) : Nat := a.targetLen + a.bs + 1

/-- The final score conversion `(minscore + bitmask) >> trace_bits`. -/
def finalScore (m : Int) : Int := (m + bitmaskC) / 4

/-- The score-only `align` overload (lines 85–150 of the source): run the
banded recurrence and report the bias-corrected exit-column minimum.  The
shape precondition (`assert`, line 94) is not part of the returned value;
theorems about this definition carry it as a hypothesis. -/
def alignScore (a : Args) : Int :=
  finalScore (runS a 0 (iterCount a) (initS a)).minscore

/-- The state of the alignment-recovering `align` overload's main loop: the
score state plus the back-pointer store, and the strict-minimum tracking
(`minscore`, `minscoreidx`; the latter is `-1` while no exit-column
extraction has improved on `INFINITY`). -/
@[ext]
structure AState where
  m1 : Vec
  i1 : Vec
  d1 : Vec
  m2 : Vec
  i2 : Vec
  d2 : Vec
  truthwin : Vec
  targetwin : Vec
  qualitieswin : Vec
  gapopen : Vec
  gapextend : Vec
  truthnqual : Vec
  initmask : Vec
  initmask2 : Vec
  bps : List Vec
  minscore : Int
  minscoreidx : Int

/-- Initial state of the alignment overload (lines 168–180 of the source). -/
def initA (a : Args) : AState :=
  let inf : Vec := vBroadcast a.bs (infScore : Int)
  let truthwin := vLoadReverse a.bs a.truth
  { m1 := inf, i1 := inf, d1 := inf, m2 := inf, i2 := inf, d2 := inf
    truthwin := truthwin
    targetwin := inf
    qualitieswin := vBroadcast a.bs ((maxNQuality : Int) * 2 ^ traceBits)
    gapopen := vLoadReverseLshift a.bs a.gapOpen traceBits
    gapextend := vLoadReverseLshift a.bs a.gapExtend traceBits
    truthnqual := vAdd (vAnd (vCmpeq truthwin (vBroadcast a.bs 78)) (vBroadcast a.bs (toInt16 nScoreMInf))) inf
    initmask := vZeroSetLast a.bs (-1)
    initmask2 := vZeroSetLast a.bs (-(bitmaskC : Int))
    bps := []
    minscore := toInt16 infScore
    minscoreidx := -1 }

/-- The back-pointer vector written each half step (lines 207–208 and
237–238 of the source):
`(M & 3) | ((I & 3) << 2·insert_label) | ((D & 3) << 2·delete_label)`. -/
def bpPack (bs : Nat) (m i d : Vec) : Vec :=
  let three := vBroadcast bs 3
  vOr (vOr (vAnd three m) (vShiftLeftBits (2 * insertLabel) (vAnd three i)))
      (vShiftLeftBits (2 * deleteLabel) (vAnd three d))

/-- The tag reset applied to `M` after the back-pointer write
(`_m = _andnot(_three, _m)`). -/
def setTagM (bs : Nat) (m : Vec) : Vec := vAndnot (vBroadcast bs 3) m

/-- The tag reset applied to `I` after the back-pointer write
(`_i = _or(_andnot(_three, _i), _right_shift<1>(_three))`). -/
def setTagI (bs : Nat) (i : Vec) : Vec :=
  vOr (vAndnot (vBroadcast bs 3) i) (vShiftRightBits1 (vBroadcast bs 3))

/-- The tag reset applied to `D` after the back-pointer write
(`_d = _or(_andnot(_three, _d), _three)`). -/
def setTagD (bs : Nat) (d : Vec) : Vec :=
  vOr (vAndnot (vBroadcast bs 3) d) (vBroadcast bs 3)

/-- The vector pipeline of the even half step of the alignment overload
before the back-pointer write (lines 183–206): identical arithmetic to the
score-only even half step, returning the freshly computed `M₁, I₁, D₁`
together with the updated shared windows and minimum tracking. -/
def stepEvenACore (a : Args) (k : Nat) (st : AState) : AState :=
  let targetwin := vShiftUp st.targetwin
  let qualitieswin := vShiftUp st.qualitieswin
  let targetwin := if k < a.targetLen then vInsert targetwin (a.target.getD k 0 : Int) 0
                   else vInsert targetwin 48 0
  let qualitieswin := if k < a.targetLen then vInsert qualitieswin (a.quals.getD k 0 * 2 ^ traceBits) 0
                      else vInsert qualitieswin ((maxNQuality : Int) * 2 ^ traceBits) 0
  let m1 := vOr st.initmask2 (vAndnot st.initmask st.m1)
  let m2 := vOr st.initmask2 (vAndnot st.initmask st.m2)
  let m1 := vMin m1 (vMin st.i1 st.d1)
  let cur := toInt16 (vExtract a.bs m1 (k - a.targetLen))
  let improved := a.targetLen ≤ k ∧ cur < st.minscore
  let minscore := if a.targetLen ≤ k ∧ cur < st.minscore then cur else st.minscore
  let minscoreidx := if improved then (2 * k : Int) else st.minscoreidx
  let m1 := vAdd m1 (vMin (vAndnot (vCmpeq targetwin st.truthwin) qualitieswin) st.truthnqual)
  let d1 := vMin (vAdd st.d2 st.gapextend) (vAdd (vMin m2 st.i2) (vShiftDown st.gapopen))
  let d1 := vInsert (vShiftUp d1) (infScore : Int) 0
  let i1 := vAdd (vMin (vAdd st.i2 st.gapextend) (vAdd m2 st.gapopen)) (vBroadcast a.bs (a.nucPrior * 2 ^ traceBits))
  { st with m1 := m1, m2 := m2, i1 := i1, d1 := d1
            targetwin := targetwin, qualitieswin := qualitieswin
            minscore := minscore, minscoreidx := minscoreidx }

/-- The even half step of the alignment overload (lines 183–212): the core
pipeline, then the back-pointer write and the tag resets `{0, 1, 3}`. -/
def stepEvenA (a : Args) (k : Nat) (st : AState) : AState :=
  let st := stepEvenACore a k st
  { st with bps := st.bps ++ [bpPack a.bs st.m1 st.i1 st.d1]
            m1 := setTagM a.bs st.m1
            i1 := setTagI a.bs st.i1
            d1 := setTagD a.bs st.d1 }

/-- The vector pipeline of the odd half step of the alignment overload
before the back-pointer write (lines 214–236). -/
def stepOddACore (a : Args) (k : Nat) (st : AState) : AState :=
  let pos := a.bs + k
  let posInRange := pos < a.truthLen
  let base : Nat := if posInRange then a.truth.getD pos 0 else 78
  let truthwin := vInsert (vShiftDown st.truthwin) (base : Int) (a.bs - 1)
  let truthnqual := vInsert (vShiftDown st.truthnqual)
      (if base = 78 then (nScore : Int) else (infScore : Int)) (a.bs - 1)
  let gapIdx := if posInRange then pos else a.truthLen - 1
  let gapopen := vInsert (vShiftDown st.gapopen) (a.gapOpen.getD gapIdx 0 * 2 ^ traceBits) (a.bs - 1)
  let gapextend := vInsert (vShiftDown st.gapextend) (a.gapExtend.getD gapIdx 0 * 2 ^ traceBits) (a.bs - 1)
  let initmask := vShiftUp st.initmask
  let initmask2 := vShiftUp st.initmask2
  let m2 := vMin st.m2 (vMin st.i2 st.d2)
  let cur := toInt16 (vExtract a.bs m2 (k - a.targetLen))
  let improved := a.targetLen ≤ k ∧ cur < st.minscore
  let minscore := if a.targetLen ≤ k ∧ cur < st.minscore then cur else st.minscore
  let minscoreidx := if improved then (2 * k + 1 : Int) else st.minscoreidx
  let m2 := vAdd m2 (vMin (vAndnot (vCmpeq st.targetwin truthwin) st.qualitieswin) truthnqual)
  let d2 := vMin (vAdd st.d1 gapextend) (vAdd (vMin st.m1 st.i1) gapopen)
  let i2 := vInsert (vAdd (vMin (vAdd (vShiftDown st.i1) gapextend)
      (vAdd (vShiftDown st.m1) gapopen)) (vBroadcast a.bs (a.nucPrior * 2 ^ traceBits)))
      (infScore : Int) (a.bs - 1)
  { st with m2 := m2, i2 := i2, d2 := d2
            truthwin := truthwin, truthnqual := truthnqual
            gapopen := gapopen, gapextend := gapextend
            initmask := initmask, initmask2 := initmask2
            minscore := minscore, minscoreidx := minscoreidx }

/-- The odd half step of the alignment overload (lines 214–242): the core
pipeline, then the back-pointer write and the tag resets `{0, 1, 3}`. -/
def stepOddA (a : Args) (k : Nat) (st : AState) : AState :=
  let st := stepOddACore a k st
  { st with bps := st.bps ++ [bpPack a.bs st.m2 st.i2 st.d2]
            m2 := setTagM a.bs st.m2
            i2 := setTagI a.bs st.i2
            d2 := setTagD a.bs st.d2 }

/-- One full iteration (half steps `s` and `s + 1`) of the alignment loop. -/
def stepA (a : Args) (k : Nat) (st : AState) : AState :=
  stepOddA a k (stepEvenA a k st)

/-- Run `n` iterations of the alignment loop starting at iteration `k`. -/
def runA : (a : Args) → (k n : Nat) → AState → AState
  | _, _, 0, st => st
  | a, k, n + 1, st => runA a (k + 1) n (stepA a k st)

/-- Read a 16-bit word of the back-pointer buffer viewed as a flat array of
lanes (`reinterpret_cast<short*>(_backpointers.data() + s)[i]` reads word
`s * band_size + i`); unwritten trailing vectors of the value-initialised
buffer read as zero. -/
def bpWord (flat : List Nat) (w : Nat) : Nat := flat.getD w 0

/-- Truth byte at a possibly out-of-range index during the backtrace
(`truth[--x]`; the C++ read is unchecked, an out-of-range index is modelled
as a zero byte). -/
def truthAt (truth : List Nat) (x : Int) : Nat :=
  if x < 0 then 0 else truth.getD x.toNat 0

/-- Outcome of the backtrace walk: `done` carries the two alignment strings
(in final, already-reversed order) and the final `x`; `oob` is the
`s < 0 || i < 0` overflow exit, carrying the characters emitted so far
(most recent first). -/
inductive WalkRes where
  | done (e1 e2 : List Nat) (x : Int)
  | oob (e1 e2 : List Nat)
deriving DecidableEq, Repr

/-- The backtrace loop (lines 263–287 of the source), fuelled.  Accumulators
`e1`, `e2` hold the emitted truth/target characters most recent first, so
that on completion they are exactly the in-place-reversed strings the C++
leaves in the buffers. -/
def walkAux (bs : Nat) (truth target : List Nat) (flat : List Nat) :
    Nat → Int → Int → Nat → Int → Nat → List Nat → List Nat → Option WalkRes
  | 0, _, _, _, _, _, _, _ => none
  | _ + 1, _, _, 0, x, _, e1, e2 => some (.done e1 e2 x)
  | fuel + 1, s, i, y + 1, x, state, e1, e2 =>
    if s < 0 ∨ i < 0 then some (.oob e1 e2)
    else
      let newState := bpWord flat (s * bs + i).toNat / 4 ^ state % 4
      if state = matchLabel then
        walkAux bs truth target flat fuel (s - 2) i y (x - 1) newState
          (truthAt truth (x - 1) :: e1) (target.getD y 0 :: e2)
      else if state = insertLabel then
        walkAux bs truth target flat fuel (s - 1) (i + s % 2) y x newState
          (gapLabel :: e1) (target.getD y 0 :: e2)
      else
        walkAux bs truth target flat fuel (s - 1) (i - (s - 1) % 2) (y + 1) (x - 1) newState
          (truthAt truth (x - 1) :: e1) (gapLabel :: e2)

/-- Result of the alignment-recovering `align` overload: the returned score,
`first_pos`, the two alignment strings (characters before the written
terminator; empty on failure), and the two caller buffers after the call,
given their initial contents. -/
structure AResult where
  score : Int
  firstPos : Int
  align1 : List Nat
  align2 : List Nat
  buf1 : List Nat
  buf2 : List Nat
deriving DecidableEq, Repr

/-- Overwrite a prefix of a caller buffer with the characters the engine
wrote, leaving the rest of the buffer as provided. -/
def overlayBuf (init out : List Nat) : List Nat := out ++ init.drop out.length

/-- The alignment-recovering `align` overload (lines 152–301 of the source):
run the main loop, seed the backtrace at the strict minimum's half step, and
walk the back-pointers.  `init1`, `init2` are the initial contents of the
caller-provided buffers. -/
def alignTrace (a : Args) (init1 init2 : List Nat) : AResult :=
  let st := runA a 0 (iterCount a) (initA a)
  if st.minscoreidx < 0 then
    ⟨-1, -1, [], [], init1, init2⟩
  else
    let s : Int := st.minscoreidx
    let i : Int := s / 2 - a.targetLen
    let y : Nat := a.targetLen
    let x : Int := s - y
    let flat := st.bps.flatten
    if s * a.bs + i < 0 ∨ 2 * (a.truthLen + a.bs) * a.bs ≤ s * a.bs + i then
      ⟨-1, -1, [], [], init1, init2⟩
    else
      let state := bpWord flat (s * a.bs + i).toNat / 4 ^ matchLabel % 4
      match walkAux a.bs a.truth a.target flat (s.toNat + 2) (s - 2) i y x state [] [] with
      | some (.done e1 e2 xf) =>
          ⟨finalScore st.minscore, xf, e1, e2,
           overlayBuf init1 (e1 ++ [0]), overlayBuf init2 (e2 ++ [0])⟩
      | some (.oob e1 e2) =>
          ⟨-1, -1, [], [], overlayBuf init1 e1.reverse, overlayBuf init2 e2.reverse⟩
      | none =>
          ⟨-1, -1, [], [], init1, init2⟩

/-- Delete every gap character from an alignment string. -/
def stripGaps (l : List Nat) : List Nat := l.filter (fun c => c ≠ gapLabel)

/-- Number of gap characters in an alignment string. -/
def countGaps (l : List Nat) : Nat := (l.filter (fun c => c = gapLabel)).length

/-- The increasing segment of truth bytes read by the backtrace between two
walk positions: `[truthAt lo, truthAt (lo+1), …, truthAt (hi-1)]`. -/
def truthSeg (truth : List Nat) (lo hi : Int) : List Nat :=
  (List.range (hi - lo).toNat).map (fun (j : Nat) => truthAt truth (lo + Int.ofNat j))

/-- All lanes of a vector are 16-bit patterns (reads beyond the end give the
zero default and trivially satisfy the bound). -/
def B16 (v : Vec) : Prop := ∀ i : Nat, v.getD i 0 < 65536

/-- All lanes are multiples of 4 (no tag bits set). -/
def Tag0 (v : Vec) : Prop := ∀ i : Nat, v.getD i 0 % 4 = 0

/-- The two seed masks are aligned: a lane is either jointly
`(0xFFFF, 0x8000)` or jointly `(0, 0)`. -/
def MaskP (im im2 : Vec) : Prop :=
  ∀ i : Nat, (im.getD i 0 = 65535 ∧ im2.getD i 0 = 32768) ∨
    (im.getD i 0 = 0 ∧ im2.getD i 0 = 0)

/-- Clear the two trace bits of a lane. -/
def strip16 (x : Nat) : Nat := x - x % 4

/-- Clear the two trace bits of a signed score. -/
def stripInt (v : Int) : Int := v - v % 4

/-- Clear the trace bits of every lane. -/
def stripV (v : Vec) : Vec := v.map strip16

/-- Forget the align-mode bookkeeping of an `AState`: drop the back-pointer
store and the minimum's index, and clear the trace bits of the six band
vectors and of the running minimum.  The score-only loop is exactly the
image of the align loop under this map. -/
def stripS (st : AState) : SState :=
  { m1 := stripV st.m1, i1 := stripV st.i1, d1 := stripV st.d1
    m2 := stripV st.m2, i2 := stripV st.i2, d2 := stripV st.d2
    truthwin := st.truthwin, targetwin := st.targetwin
    qualitieswin := st.qualitieswin
    gapopen := st.gapopen, gapextend := st.gapextend
    truthnqual := st.truthnqual
    initmask := st.initmask, initmask2 := st.initmask2
    minscore := stripInt st.minscore }

/-- Well-formedness of an align-loop state: lanes are 16-bit patterns of
length `bs`; the penalty and emission windows carry no tag bits; the seed
masks hold their two-valued patterns. -/
structure WfA (bs : Nat) (st : AState) : Prop where
  lm1 : st.m1.length = bs
  li1 : st.i1.length = bs
  ld1 : st.d1.length = bs
  lm2 : st.m2.length = bs
  li2 : st.i2.length = bs
  ld2 : st.d2.length = bs
  ltw : st.truthwin.length = bs
  lqw : st.targetwin.length = bs
  lqq : st.qualitieswin.length = bs
  lgo : st.gapopen.length = bs
  lge : st.gapextend.length = bs
  ltn : st.truthnqual.length = bs
  lim : st.initmask.length = bs
  lim2 : st.initmask2.length = bs
  bm1 : B16 st.m1
  bi1 : B16 st.i1
  bd1 : B16 st.d1
  bm2 : B16 st.m2
  bi2 : B16 st.i2
  bd2 : B16 st.d2
  btw : B16 st.truthwin
  bqw : B16 st.targetwin
  tqq : Tag0 st.qualitieswin
  bqq : B16 st.qualitieswin
  tgo : Tag0 st.gapopen
  bgo : B16 st.gapopen
  tge : Tag0 st.gapextend
  bge : B16 st.gapextend
  ttn : Tag0 st.truthnqual
  btn : B16 st.truthnqual
  maskP : MaskP st.initmask st.initmask2
  msLo : -32768 ≤ st.minscore

/-- A zero-filled caller buffer, as the repository's test harness passes. -/
def zeroBuf (n : Nat) : List Nat := List.replicate n 0

/-- Test 1 of `test/unit/core/models/pair_hmm_tests.cpp`:
truth `ACGTACGTACGTACGAAAA`, target `AAAA`, qualities 40, `gO = 10`,
`gE = 1`, `nP = 4`. -/
def hmmTest1 : Args :=
  { bs := 8
    truth := [65,67,71,84,65,67,71,84,65,67,71,84,65,67,71,65,65,65,65]
    target := [65,65,65,65]
    quals := [40,40,40,40]
    gapOpen := List.replicate 19 10
    gapExtend := List.replicate 19 1
    nucPrior := 4 }

/-- Test 2: truth `ACGTACGTACGTACGAATA`, target `AAAA`, `gO = 90`. -/
def hmmTest2 : Args :=
  { bs := 8
    truth := [65,67,71,84,65,67,71,84,65,67,71,84,65,67,71,65,65,84,65]
    target := [65,65,65,65]
    quals := [40,40,40,40]
    gapOpen := List.replicate 19 90
    gapExtend := List.replicate 19 1
    nucPrior := 4 }

/-- Test 3: truth `ACGTACGAAGCTACGTACG`, target `CGGC`, `gO = 90` except
`gO[7] = 70`. -/
def hmmTest3 : Args :=
  { bs := 8
    truth := [65,67,71,84,65,67,71,65,65,71,67,84,65,67,71,84,65,67,71]
    target := [67,71,71,67]
    quals := [40,40,40,40]
    gapOpen := [90,90,90,90,90,90,90,70,90,90,90,90,90,90,90,90,90,90,90]
    gapExtend := List.replicate 19 1
    nucPrior := 4 }

/-- Test 4: truth `CGAAGCACGTACGTACGTA`, target `CGGC`, `gO = 90` except
`gO[2] = 70`. -/
def hmmTest4 : Args :=
  { bs := 8
    truth := [67,71,65,65,71,67,65,67,71,84,65,67,71,84,65,67,71,84,65]
    target := [67,71,71,67]
    quals := [40,40,40,40]
    gapOpen := [90,90,70,90,90,90,90,90,90,90,90,90,90,90,90,90,90,90,90]
    gapExtend := List.replicate 19 1
    nucPrior := 4 }

/-- Test 5: truth `CCCCACGTATATATATATATATGGGGACGT`, target
`CCCCACGTGGGACGT`, `gO = 90` except `gO[8] = 70`: the fifteen-base
deletion case. -/
def hmmTest5 : Args :=
  { bs := 8
    truth := [67,67,67,67,65,67,71,84,65,84,65,84,65,84,65,84,65,84,65,84,65,84,71,71,71,71,65,67,71,84]
    target := [67,67,67,67,65,67,71,84,71,71,71,65,67,71,84]
    quals := List.replicate 15 40
    gapOpen := [90,90,90,90,90,90,90,90,70,90,90,90,90,90,90,90,90,90,90,90,90,90,90,90,90,90,90,90,90,90]
    gapExtend := List.replicate 30 1
    nucPrior := 4 }

/-- A shape-valid input with negative (signed `int8`) gap penalties: truth
19 `'A'`s, target `CCCC`, qualities 40, `gO = -64`, `gE = -4`, `nP = 4`.
On it the strict minimum is attained at the last, lane-clamped exit-column
extraction, and the backtrace walks past the end of the truth. -/
def exNegGap : Args :=
  { bs := 8
    truth := List.replicate 19 65
    target := [67,67,67,67]
    quals := [40,40,40,40]
    gapOpen := List.replicate 19 (-64)
    gapExtend := List.replicate 19 (-4)
    nucPrior := 4 }

/-- A shape-valid input on which the backtrace walk hits a negative index
mid-way (`s < 0 || i < 0`) after having emitted characters: truth 19 `'A'`s,
target `CCCC`, qualities `-128`, `gO = -64`, `gE = -16`, `nP = 127`. -/
def exWalkFail : Args :=
  { bs := 8
    truth := List.replicate 19 65
    target := [67,67,67,67]
    quals := List.replicate 4 (-128)
    gapOpen := List.replicate 19 (-64)
    gapExtend := List.replicate 19 (-16)
    nucPrior := 127 }

/-- A shape-valid input on which no exit-column extraction ever improves on
`INFINITY`, so `minscoreidx` stays `-1`: truth 140 `'A'`s, target 125
`'C'`s (every position a maximal-quality mismatch), `gO = gE = 1`,
`nP = 126`.  Every banded alignment's packed score lands in
`[0x7800, 0x7FFF]`. -/
def exNoMin : Args :=
  { bs := 8
    truth := List.replicate 140 65
    target := List.replicate 125 67
    quals := List.replicate 125 127
    gapOpen := List.replicate 140 1
    gapExtend := List.replicate 140 1
    nucPrior := 126 }

/-- An input whose truth has `'N'` at position 9: after one loop iteration
the truth window holds `'N'` in its top lane. -/
def exNTruth : Args :=
  { bs := 8
    truth := [65,65,65,65,65,65,65,65,65,78,65,65,65,65,65,65,65,65,65]
    target := [67,71,71,67]
    quals := [40,40,40,40]
    gapOpen := List.replicate 19 90
    gapExtend := List.replicate 19 1
    nucPrior := 4 }

/-! ## Bit-level facts about the lane operations -/

theorem land_eq_and (a b : Nat) : Nat.land a b = a &&& b := rfl

theorem lor_eq_or (a b : Nat) : Nat.lor a b = a ||| b := rfl

theorem xor_eq_xor (a b : Nat) : Nat.xor a b = a ^^^ b := rfl

theorem land_three_eq_mod (x : Nat) : and16 3 x = x % 4 := by
  have h := Nat.and_pow_two_sub_one_eq_mod x 2
  norm_num at h
  rw [and16, land_eq_and, Nat.land_comm]
  exact h

theorem land_ffff_eq_mod (x : Nat) : Nat.land 65535 x = x % 65536 := by
  have h := Nat.and_pow_two_sub_one_eq_mod x 16
  norm_num at h
  rw [land_eq_and, Nat.land_comm]
  exact h

theorem testBit_16383 (j : Nat) : Nat.testBit 16383 j = decide (j < 14) := by
  have h : (16383 : Nat) = 2 ^ 14 - 1 := by norm_num
  rcases Nat.lt_or_ge j 14 with hj | hj
  · interval_cases j <;> decide
  · have : Nat.testBit 16383 j = false :=
      Nat.testBit_eq_false_of_lt (lt_of_lt_of_le (by norm_num)
        (Nat.pow_le_pow_right (by norm_num) hj))
    simp [this, Nat.lt_iff_add_one_le]
    omega

theorem land_fffc_eq (x : Nat) : Nat.land 65532 x = 4 * (x / 4 % 16384) := by
  apply Nat.eq_of_testBit_eq
  intro i
  rw [show ((Nat.land 65532 x) = 65532 &&& x) from rfl, Nat.testBit_land]
  have hR : 4 * (x / 4 % 16384) = (x >>> 2 % 2 ^ 14) <<< 2 := by
    rw [Nat.shiftLeft_eq, Nat.shiftRight_eq_div_pow]
    norm_num
    ring
  rw [hR, Nat.testBit_shiftLeft]
  have h65532 : (65532 : Nat) = 16383 <<< 2 := by decide
  rw [h65532, Nat.testBit_shiftLeft]
  rcases Nat.lt_or_ge i 2 with hi | hi
  · simp [Nat.not_le.mpr hi]
  · have hge : decide (i ≥ 2) = true := by simpa using hi
    rw [hge]
    simp only [Bool.true_and]
    rw [Nat.testBit_mod_two_pow, Nat.testBit_shiftRight, testBit_16383]
    have : 2 + (i - 2) = i := by omega
    rw [this]

theorem or_four_mul_add (b c : Nat) (hc : c < 4) : Nat.lor (4 * b) c = 4 * b + c := by
  apply Nat.eq_of_testBit_eq
  intro i
  rw [show (Nat.lor (4 * b) c = (4 * b) ||| c) from rfl, Nat.testBit_lor]
  have hb4 : 4 * b = b <<< 2 := by rw [Nat.shiftLeft_eq]; ring
  rcases Nat.lt_or_ge i 2 with hi | hi
  · have h4b : (4 * b).testBit i = false := by
      rw [hb4, Nat.testBit_shiftLeft]
      simp [Nat.not_le.mpr hi]
    have e1 : ((4 * b + c) % 2 ^ 2).testBit i = (4 * b + c).testBit i := by
      rw [Nat.testBit_mod_two_pow]
      simp [hi]
    have e2 : (4 * b + c) % 2 ^ 2 = c := by norm_num; omega
    rw [h4b, ← e1, e2]
    simp
  · have hcb : c.testBit i = false :=
      Nat.testBit_eq_false_of_lt (lt_of_lt_of_le hc
        (le_trans (by norm_num) (Nat.pow_le_pow_right (by norm_num) hi)))
    have e0 : (4 * b + c) >>> 2 = b := by
      rw [Nat.shiftRight_eq_div_pow]
      norm_num
      omega
    have hsum : (4 * b + c).testBit i = b.testBit (i - 2) := by
      have h := Nat.testBit_shiftRight (i := 2) (j := i - 2) (4 * b + c)
      rw [e0] at h
      have e1 : 2 + (i - 2) = i := by omega
      rw [e1] at h
      exact h.symm
    rw [hsum, hcb, hb4, Nat.testBit_shiftLeft]
    simp [hi]

theorem andnot16_three_eq (x : Nat) : andnot16 3 x = 4 * (x / 4 % 16384) := by
  have h3 : Nat.xor 3 65535 = 65532 := by decide
  rw [andnot16, h3, land_fffc_eq]

theorem andnot16_three_strip (x : Nat) (hx : x < 65536) : andnot16 3 x = strip16 x := by
  rw [andnot16_three_eq, strip16]
  omega

theorem strip16_mod_four (x : Nat) : strip16 x % 4 = 0 := by
  rw [strip16]; omega

theorem strip16_eq_of_tag0 (x : Nat) (h : x % 4 = 0) : strip16 x = x := by
  rw [strip16]; omega

theorem strip16_lt_65536 (x : Nat) (h : x < 65536) : strip16 x < 65536 := by
  rw [strip16]; omega

theorem or16_tag (x c : Nat) (hx : x % 4 = 0) (hc : c < 4) : or16 x c = x + c := by
  have : x = 4 * (x / 4) := by omega
  rw [or16, this, or_four_mul_add _ _ hc]

theorem setTag_lane_strip (x c : Nat) (hx : x < 65536) (hc : c < 4) :
    or16 (andnot16 3 x) c = strip16 x + c := by
  rw [andnot16_three_strip x hx, or16_tag _ _ (strip16_mod_four x) hc]

theorem setTag_lane_mod (x c : Nat) (hx : x < 65536) (hc : c < 4) :
    or16 (andnot16 3 x) c % 4 = c := by
  rw [setTag_lane_strip x c hx hc]
  have := strip16_mod_four x
  omega

/-! ## Scalar lane lemmas for the trace-bit simulation -/

theorem toInt16_strip (x : Nat) (hx : x < 65536) :
    toInt16 (strip16 x) = stripInt (toInt16 x) := by
  simp only [toInt16, strip16, stripInt]
  split_ifs <;> omega

theorem toInt16_lower (x : Nat) : -32768 ≤ toInt16 x := by
  simp only [toInt16]
  split_ifs <;> omega

theorem strip_smin16 (x y : Nat) (hx : x < 65536) (hy : y < 65536) :
    strip16 (smin16 x y) = smin16 (strip16 x) (strip16 y) := by
  simp only [smin16, toInt16, strip16]
  split_ifs <;> omega

theorem strip_add16 (x q : Nat) (hx : x < 65536) (hq4 : q % 4 = 0) :
    strip16 (add16 x q) = add16 (strip16 x) q := by
  simp only [add16, strip16]
  omega

theorem smin16_lt (x y : Nat) (hx : x < 65536) (hy : y < 65536) : smin16 x y < 65536 := by
  simp only [smin16]
  split_ifs <;> omega

theorem add16_lt (x y : Nat) : add16 x y < 65536 := by
  simp only [add16]
  omega

theorem add16_tag0 (x y : Nat) (hx : x % 4 = 0) (hy : y % 4 = 0) : add16 x y % 4 = 0 := by
  simp only [add16]
  omega

theorem smin16_tag0 (x y : Nat) (hx : x % 4 = 0) (hy : y % 4 = 0) : smin16 x y % 4 = 0 := by
  simp only [smin16]
  split_ifs <;> assumption

theorem andnot16_tag0 (m q : Nat) (hq : q % 4 = 0) : andnot16 m q % 4 = 0 := by
  have h1 : andnot16 m q % 4 = Nat.land 3 (andnot16 m q) := (land_three_eq_mod _).symm
  rw [h1, land_eq_and, Nat.land_comm, andnot16, land_eq_and, Nat.land_assoc]
  have hq3 : q &&& 3 = 0 := by
    have := land_three_eq_mod q
    rw [and16, land_eq_and, Nat.land_comm] at this
    omega
  rw [hq3]
  simp

theorem andnot16_le (m q : Nat) : andnot16 m q ≤ q := Nat.and_le_right

theorem ofInt16_lt (z : Int) : ofInt16 z < 65536 := by
  simp only [ofInt16]
  have h1 : 0 ≤ z % 65536 := Int.emod_nonneg z (by norm_num)
  have h2 : z % 65536 < 65536 := Int.emod_lt_of_pos z (by norm_num)
  omega

theorem ofInt16_mul4_tag0 (z : Int) : ofInt16 (z * 2 ^ traceBits) % 4 = 0 := by
  simp only [ofInt16, traceBits]
  norm_num
  have h1 : 0 ≤ z * 4 % 65536 := Int.emod_nonneg _ (by norm_num)
  have h2 : (z * 4) % 65536 % 4 = 0 := by
    have : (65536 : Int) = 4 * 16384 := by norm_num
    omega
  omega

/-! ## List-level helpers -/

theorem getD_tail0 (l : List Nat) (i : Nat) : l.tail.getD i 0 = l.getD (i + 1) 0 := by
  cases l <;> simp

theorem getD_map0 (f : Nat → Nat) (h0 : f 0 = 0) (v : List Nat) (i : Nat) :
    (v.map f).getD i 0 = f (v.getD i 0) := by
  induction v generalizing i with
  | nil => simp [h0]
  | cons x xs ih =>
    cases i with
    | zero => simp
    | succ n =>
      rw [List.map_cons, List.getD_cons_succ, List.getD_cons_succ]
      exact ih n

theorem getD_zipWith_or (f : Nat → Nat → Nat) (a b : List Nat) (i : Nat) :
    (List.zipWith f a b).getD i 0 = f (a.getD i 0) (b.getD i 0) ∨
      (List.zipWith f a b).getD i 0 = 0 := by
  induction a generalizing b i with
  | nil => simp
  | cons x xs ih =>
    cases b with
    | nil => simp
    | cons y ys =>
      cases i with
      | zero => simp
      | succ j => simpa using ih ys j

theorem getD_set_or (l : List Nat) (n x i : Nat) :
    (l.set n x).getD i 0 = x ∨ (l.set n x).getD i 0 = l.getD i 0 := by
  induction l generalizing n i with
  | nil => simp
  | cons z zs ih =>
    cases n with
    | zero => cases i <;> simp
    | succ m =>
      cases i with
      | zero => simp
      | succ j => simpa using ih m j

theorem getD_dropLast (l : List Nat) (j : Nat) :
    l.dropLast.getD j 0 = if j + 1 < l.length then l.getD j 0 else 0 := by
  induction l generalizing j with
  | nil => simp
  | cons x xs ih =>
    cases xs with
    | nil => cases j <;> simp
    | cons y ys =>
      cases j with
      | zero => simp [List.dropLast]
      | succ i =>
        have := ih i
        simp only [List.dropLast_cons₂, List.getD_cons_succ, List.length_cons] at this ⊢
        rw [this]
        split_ifs <;> first | rfl | omega

theorem getD_replicate_or (c n i : Nat) : (List.replicate n c).getD i 0 = c ∨
    (List.replicate n c).getD i 0 = 0 := by
  induction n generalizing i with
  | zero => simp
  | succ m ih =>
    cases i with
    | zero => simp [List.replicate_succ]
    | succ j => simpa [List.replicate_succ] using ih j

theorem zipWith_replicate_left (f : Nat → Nat → Nat) (c : Nat) (n : Nat) (v : List Nat) :
    List.zipWith f (List.replicate n c) v = (v.take n).map (f c) := by
  induction v generalizing n with
  | nil => simp
  | cons x xs ih =>
    cases n with
    | zero => simp
    | succ m => simp [List.replicate_succ, ih]

theorem zipWith_replicate_right (f : Nat → Nat → Nat) (c : Nat) (n : Nat) (v : List Nat) :
    List.zipWith f v (List.replicate n c) = (v.take n).map (fun x => f x c) := by
  induction v generalizing n with
  | nil => simp
  | cons x xs ih =>
    cases n with
    | zero => simp
    | succ m => simp [List.replicate_succ, ih]

theorem map_dropLast0 (f : Nat → Nat) (l : List Nat) :
    l.dropLast.map f = (l.map f).dropLast := by
  induction l with
  | nil => rfl
  | cons x xs ih =>
    cases xs with
    | nil => rfl
    | cons y ys => simp [List.dropLast_cons₂, ih]

theorem map_tail0 (f : Nat → Nat) (l : List Nat) : l.tail.map f = (l.map f).tail := by
  cases l <;> rfl

theorem B16_head {x : Nat} {xs : Vec} (h : B16 (x :: xs)) : x < 65536 := by
  simpa using h 0

theorem B16_tail {x : Nat} {xs : Vec} (h : B16 (x :: xs)) : B16 xs := fun i => by
  simpa using h (i + 1)

theorem Tag0_head {x : Nat} {xs : Vec} (h : Tag0 (x :: xs)) : x % 4 = 0 := by
  simpa using h 0

theorem Tag0_tail {x : Nat} {xs : Vec} (h : Tag0 (x :: xs)) : Tag0 xs := fun i => by
  simpa using h (i + 1)

theorem B16_mem {v : Vec} (h : B16 v) {x : Nat} (hx : x ∈ v) : x < 65536 := by
  induction v with
  | nil => cases hx
  | cons y ys ih =>
    rcases List.mem_cons.mp hx with rfl | hx'
    · exact B16_head h
    · exact ih (B16_tail h) hx'

/-! ## Trace-bit erasure commutes with the lane pipeline -/

theorem stripV_vMin (a b : Vec) (ha : B16 a) (hb : B16 b) :
    stripV (vMin a b) = vMin (stripV a) (stripV b) := by
  induction a generalizing b with
  | nil => cases b <;> rfl
  | cons x xs ih =>
    cases b with
    | nil => rfl
    | cons y ys =>
      simp only [stripV, vMin, vZip, List.zipWith_cons_cons, List.map_cons, List.cons.injEq]
      exact ⟨strip_smin16 x y (B16_head ha) (B16_head hb), ih ys (B16_tail ha) (B16_tail hb)⟩

theorem stripV_vAdd (a q : Vec) (ha : B16 a) (hq : Tag0 q) :
    stripV (vAdd a q) = vAdd (stripV a) q := by
  induction a generalizing q with
  | nil => cases q <;> rfl
  | cons x xs ih =>
    cases q with
    | nil => rfl
    | cons y ys =>
      simp only [stripV, vAdd, vZip, List.zipWith_cons_cons, List.map_cons, List.cons.injEq]
      exact ⟨strip_add16 x y (B16_head ha) (Tag0_head hq), ih ys (B16_tail ha) (Tag0_tail hq)⟩

theorem stripV_initmix (im im2 x : Vec) (hp : MaskP im im2) (hx : B16 x) :
    stripV (vOr im2 (vAndnot im x)) = vOr im2 (vAndnot im (stripV x)) := by
  induction im generalizing im2 x with
  | nil => cases im2 <;> cases x <;> rfl
  | cons m ms ih =>
    cases im2 with
    | nil => cases x <;> rfl
    | cons m2 m2s =>
      cases x with
      | nil => rfl
      | cons x0 xs =>
        have h0 := hp 0
        simp only [List.getD_cons_zero] at h0
        have hrest : MaskP ms m2s := fun i => by simpa using hp (i + 1)
        simp only [stripV, vOr, vAndnot, vZip, List.zipWith_cons_cons, List.map_cons,
          List.cons.injEq]
        refine ⟨?_, ih m2s xs hrest (B16_tail hx)⟩
        rcases h0 with ⟨hm, hm2⟩ | ⟨hm, hm2⟩ <;> subst hm <;> subst hm2
        · have hz : ∀ z : Nat, andnot16 65535 z = 0 := by
            intro z
            show Nat.land (Nat.xor 65535 65535) z = 0
            rw [show Nat.xor 65535 65535 = 0 by decide]
            simp [land_eq_and]
          rw [hz, hz]
          decide
        · have hz : ∀ z : Nat, z < 65536 → andnot16 0 z = z := by
            intro z hzb
            show Nat.land (Nat.xor 0 65535) z = z
            rw [show Nat.xor 0 65535 = 65535 by decide, land_ffff_eq_mod]
            omega
          have hx0 : x0 < 65536 := B16_head hx
          rw [hz x0 hx0, hz (strip16 x0) (strip16_lt_65536 x0 hx0)]
          show strip16 (or16 0 x0) = or16 0 (strip16 x0)
          simp [or16, lor_eq_or]

theorem stripV_vInsert (v : Vec) (z : Int) (i : Nat) (hz : ofInt16 z % 4 = 0) :
    stripV (vInsert v z i) = vInsert (stripV v) z i := by
  simp only [stripV, vInsert, List.map_set]
  rw [strip16_eq_of_tag0 _ hz]

theorem stripV_vShiftUp (v : Vec) : stripV (vShiftUp v) = vShiftUp (stripV v) := by
  simp only [stripV, vShiftUp, List.map_cons, map_dropLast0]
  rfl

theorem stripV_vShiftDown (v : Vec) : stripV (vShiftDown v) = vShiftDown (stripV v) := by
  simp only [stripV, vShiftDown, List.map_append, map_tail0]
  rfl

theorem setTagM_eq_map (bs : Nat) (v : Vec) (hl : v.length = bs) :
    setTagM bs v = v.map (fun x => andnot16 3 x) := by
  have h3 : ofInt16 3 = 3 := by decide
  simp [setTagM, vAndnot, vZip, vBroadcast, h3, zipWith_replicate_left, hl]

theorem setTagI_eq_map (bs : Nat) (v : Vec) (hl : v.length = bs) :
    setTagI bs v = v.map (fun x => or16 (andnot16 3 x) 1) := by
  subst hl
  have h3 : ofInt16 3 = 3 := by decide
  have hones : vShiftRightBits1 (List.replicate v.length 3) = List.replicate v.length 1 := by
    simp [vShiftRightBits1, List.map_replicate]
  simp only [setTagI, vOr, vAndnot, vZip, vBroadcast, h3, hones]
  rw [zipWith_replicate_left, zipWith_replicate_right]
  simp [List.map_map, Function.comp_def]

theorem setTagD_eq_map (bs : Nat) (v : Vec) (hl : v.length = bs) :
    setTagD bs v = v.map (fun x => or16 (andnot16 3 x) 3) := by
  subst hl
  have h3 : ofInt16 3 = 3 := by decide
  simp only [setTagD, vOr, vAndnot, vZip, vBroadcast, h3]
  rw [zipWith_replicate_left, zipWith_replicate_right]
  simp [List.map_map, Function.comp_def]

theorem stripV_setTagM (bs : Nat) (v : Vec) (hl : v.length = bs) (hv : B16 v) :
    stripV (setTagM bs v) = stripV v := by
  rw [setTagM_eq_map bs v hl]
  simp only [stripV, List.map_map]
  apply List.map_congr_left
  intro x hx
  simp only [Function.comp_apply]
  rw [andnot16_three_strip x (B16_mem hv hx), strip16_eq_of_tag0 _ (strip16_mod_four x)]

theorem stripV_setTagI (bs : Nat) (v : Vec) (hl : v.length = bs) (hv : B16 v) :
    stripV (setTagI bs v) = stripV v := by
  rw [setTagI_eq_map bs v hl]
  simp only [stripV, List.map_map]
  apply List.map_congr_left
  intro x hx
  simp only [Function.comp_apply]
  rw [setTag_lane_strip x 1 (B16_mem hv hx) (by norm_num)]
  simp only [strip16]
  have := strip16_mod_four x
  simp only [strip16] at this
  omega

theorem stripV_setTagD (bs : Nat) (v : Vec) (hl : v.length = bs) (hv : B16 v) :
    stripV (setTagD bs v) = stripV v := by
  rw [setTagD_eq_map bs v hl]
  simp only [stripV, List.map_map]
  apply List.map_congr_left
  intro x hx
  simp only [Function.comp_apply]
  rw [setTag_lane_strip x 3 (B16_mem hv hx) (by norm_num)]
  simp only [strip16]
  have := strip16_mod_four x
  simp only [strip16] at this
  omega

/-! ## Bound and tag closure of the lane operations -/

theorem B16_zip (f : Nat → Nat → Nat) (a b : Vec)
    (hf : ∀ x y, x < 65536 → y < 65536 → f x y < 65536)
    (ha : B16 a) (hb : B16 b) : B16 (vZip f a b) := by
  intro i
  rw [vZip]
  rcases getD_zipWith_or f a b i with h | h <;> rw [h]
  · exact hf _ _ (ha i) (hb i)
  · norm_num

theorem Tag0_zip (f : Nat → Nat → Nat) (a b : Vec)
    (hf : ∀ x y, x % 4 = 0 → y % 4 = 0 → f x y % 4 = 0)
    (ha : Tag0 a) (hb : Tag0 b) : Tag0 (vZip f a b) := by
  intro i
  rw [vZip]
  rcases getD_zipWith_or f a b i with h | h
  · rw [h]; exact hf _ _ (ha i) (hb i)
  · rw [h]

theorem Tag0_zip_right (f : Nat → Nat → Nat) (a b : Vec)
    (hf : ∀ x y, y % 4 = 0 → f x y % 4 = 0)
    (hb : Tag0 b) : Tag0 (vZip f a b) := by
  intro i
  rw [vZip]
  rcases getD_zipWith_or f a b i with h | h
  · rw [h]; exact hf _ _ (hb i)
  · rw [h]

theorem getD_map_or (f : Nat → Nat) (v : List Nat) (i : Nat) :
    (v.map f).getD i 0 = f (v.getD i 0) ∨ (v.map f).getD i 0 = 0 := by
  induction v generalizing i with
  | nil => simp
  | cons x xs ih =>
    cases i with
    | zero => simp
    | succ j => simpa using ih j

theorem B16_map (f : Nat → Nat) (v : Vec) (hf : ∀ x, x < 65536 → f x < 65536)
    (hv : B16 v) : B16 (v.map f) := by
  intro i
  rcases getD_map_or f v i with h | h <;> rw [h]
  · exact hf _ (hv i)
  · norm_num

theorem B16_broadcast (bs : Nat) (z : Int) : B16 (vBroadcast bs z) := by
  intro i
  rcases getD_replicate_or (ofInt16 z) bs i with h | h <;> rw [vBroadcast] at *
  · rw [h]; exact ofInt16_lt z
  · rw [h]; norm_num

theorem Tag0_broadcast4 (bs : Nat) (z : Int) : Tag0 (vBroadcast bs (z * 2 ^ traceBits)) := by
  intro i
  rcases getD_replicate_or (ofInt16 (z * 2 ^ traceBits)) bs i with h | h <;> rw [vBroadcast] at *
  · rw [h]; exact ofInt16_mul4_tag0 z
  · rw [h]

theorem B16_shiftUp (v : Vec) (hv : B16 v) : B16 (vShiftUp v) := by
  intro i
  cases i with
  | zero => simp [vShiftUp]
  | succ j =>
    show (vShiftUp v).getD (j + 1) 0 < 65536
    simp only [vShiftUp, List.getD_cons_succ]
    rw [getD_dropLast]
    split_ifs
    · exact hv j
    · norm_num

theorem Tag0_shiftUp (v : Vec) (hv : Tag0 v) : Tag0 (vShiftUp v) := by
  intro i
  cases i with
  | zero => simp [vShiftUp]
  | succ j =>
    show (vShiftUp v).getD (j + 1) 0 % 4 = 0
    simp only [vShiftUp, List.getD_cons_succ]
    rw [getD_dropLast]
    split_ifs
    · exact hv j
    · norm_num

theorem getD_append_sing (m : List Nat) (c i : Nat) :
    (m ++ [c]).getD i 0 = m.getD i 0 ∨ (m ++ [c]).getD i 0 = c := by
  induction m generalizing i with
  | nil =>
    cases i with
    | zero => simp
    | succ j => simp
  | cons x xs ih =>
    cases i with
    | zero => simp
    | succ j => simpa using ih j

theorem B16_shiftDown (v : Vec) (hv : B16 v) : B16 (vShiftDown v) := by
  intro i
  rcases getD_append_sing v.tail 0 i with h | h <;> rw [vShiftDown, h]
  · rw [getD_tail0]; exact hv (i + 1)
  · norm_num

theorem Tag0_shiftDown (v : Vec) (hv : Tag0 v) : Tag0 (vShiftDown v) := by
  intro i
  rcases getD_append_sing v.tail 0 i with h | h <;> rw [vShiftDown, h]
  · rw [getD_tail0]; exact hv (i + 1)

theorem B16_insert (v : Vec) (z : Int) (n : Nat) (hv : B16 v) : B16 (vInsert v z n) := by
  intro i
  rcases getD_set_or v n (ofInt16 z) i with h | h <;> rw [vInsert, h]
  · exact ofInt16_lt z
  · exact hv i

theorem Tag0_insert (v : Vec) (z : Int) (n : Nat) (hv : Tag0 v) (hz : ofInt16 z % 4 = 0) :
    Tag0 (vInsert v z n) := by
  intro i
  rcases getD_set_or v n (ofInt16 z) i with h | h <;> rw [vInsert, h]
  · exact hz
  · exact hv i

theorem B16_stripV (v : Vec) (hv : B16 v) : B16 (stripV v) :=
  B16_map strip16 v (fun x hx => strip16_lt_65536 x hx) hv

theorem maskP_B16_left {im im2 : Vec} (hp : MaskP im im2) : B16 im := by
  intro i
  rcases hp i with ⟨h, _⟩ | ⟨h, _⟩ <;> rw [h] <;> norm_num

theorem maskP_B16_right {im im2 : Vec} (hp : MaskP im im2) : B16 im2 := by
  intro i
  rcases hp i with ⟨_, h⟩ | ⟨_, h⟩ <;> rw [h] <;> norm_num

theorem maskP_shiftUp (im im2 : Vec) (hlen : im.length = im2.length) (hp : MaskP im im2) :
    MaskP (vShiftUp im) (vShiftUp im2) := by
  intro i
  cases i with
  | zero => right; constructor <;> rfl
  | succ j =>
    simp only [vShiftUp, List.getD_cons_succ]
    rw [getD_dropLast, getD_dropLast]
    by_cases hj : j + 1 < im.length
    · have hj2 : j + 1 < im2.length := hlen ▸ hj
      rw [if_pos hj, if_pos hj2]
      exact hp j
    · have hj2 : ¬ j + 1 < im2.length := hlen ▸ hj
      rw [if_neg hj, if_neg hj2]
      right
      exact ⟨rfl, rfl⟩

theorem B16_or (a b : Vec) (ha : B16 a) (hb : B16 b) : B16 (vOr a b) := by
  apply B16_zip
  · intro x y hx hy
    have := Nat.or_lt_two_pow (n := 16) (by simpa using hx) (by simpa using hy)
    simpa [or16, lor_eq_or] using this
  · exact ha
  · exact hb

theorem B16_andnot (a b : Vec) (hb : B16 b) : B16 (vAndnot a b) := by
  intro i
  rcases getD_zipWith_or andnot16 a b i with h | h <;> rw [vAndnot, vZip] at *
  · rw [h]; exact lt_of_le_of_lt (andnot16_le _ _) (hb i)
  · rw [h]; norm_num

theorem B16_min (a b : Vec) (ha : B16 a) (hb : B16 b) : B16 (vMin a b) :=
  B16_zip smin16 a b (fun x y hx hy => smin16_lt x y hx hy) ha hb

theorem B16_add (a b : Vec) : B16 (vAdd a b) := by
  intro i
  rcases getD_zipWith_or add16 a b i with h | h <;> rw [vAdd, vZip] at *
  · rw [h]; exact add16_lt _ _
  · rw [h]; norm_num

theorem length_vZip (f : Nat → Nat → Nat) (a b : Vec) {bs : Nat}
    (ha : a.length = bs) (hb : b.length = bs) : (vZip f a b).length = bs := by
  simp [vZip, ha, hb]

theorem length_vShiftUp (v : Vec) {bs : Nat} (h : v.length = bs) (hbs : 1 ≤ bs) :
    (vShiftUp v).length = bs := by
  simp only [vShiftUp, List.length_cons, List.length_dropLast, h]
  omega

theorem length_vShiftDown (v : Vec) {bs : Nat} (h : v.length = bs) (hbs : 1 ≤ bs) :
    (vShiftDown v).length = bs := by
  simp only [vShiftDown, List.length_append, List.length_tail, h, List.length_cons,
    List.length_nil]
  omega

theorem length_vInsert (v : Vec) (z : Int) (n : Nat) {bs : Nat} (h : v.length = bs) :
    (vInsert v z n).length = bs := by
  simp [vInsert, h]

theorem length_stripV (v : Vec) : (stripV v).length = v.length := by
  simp [stripV]

theorem length_vBroadcast (bs : Nat) (z : Int) : (vBroadcast bs z).length = bs := by
  simp [vBroadcast]

theorem vExtract_stripV (bs : Nat) (v : Vec) (i : Nat) :
    vExtract bs (stripV v) i = strip16 (vExtract bs v i) := by
  simp only [vExtract, stripV]
  exact getD_map0 strip16 rfl v _

theorem stripInt_mono (a b : Int) (h : a ≤ b) : stripInt a ≤ stripInt b := by
  simp only [stripInt]
  omega

theorem strip_min_update (ms cur : Int) (c : Prop) [Decidable c] :
    stripInt (if c ∧ cur < ms then cur else ms) =
      if c then min (stripInt ms) (stripInt cur) else stripInt ms := by
  by_cases hc : c
  · simp only [hc, true_and, if_true]
    by_cases hlt : cur < ms
    · rw [if_pos hlt, min_def]
      have h1 := stripInt_mono cur ms (le_of_lt hlt)
      split_ifs with h2
      · omega
      · rfl
    · rw [if_neg hlt, min_def]
      have h1 := stripInt_mono ms cur (by omega)
      split_ifs with h2
      · rfl
      · omega
  · simp [hc]

/-! ## Pipeline lemmas: one per updated field of a half step -/

theorem Tag0_ite (c : Prop) [Decidable c] (X Y : Vec) (hX : Tag0 X) (hY : Tag0 Y) :
    Tag0 (if c then X else Y) := by
  by_cases h : c
  · simpa [h] using hX
  · simpa [h] using hY

theorem B16_ite (c : Prop) [Decidable c] (X Y : Vec) (hX : B16 X) (hY : B16 Y) :
    B16 (if c then X else Y) := by
  by_cases h : c
  · simpa [h] using hX
  · simpa [h] using hY

theorem length_ite (c : Prop) [Decidable c] (X Y : Vec) {bs : Nat}
    (hX : X.length = bs) (hY : Y.length = bs) : (if c then X else Y).length = bs := by
  by_cases h : c <;> simp [h, hX, hY]

theorem Tag0_emission (C Q TN : Vec) (hQ : Tag0 Q) (hTN : Tag0 TN) :
    Tag0 (vMin (vAndnot C Q) TN) :=
  Tag0_zip smin16 _ _ (fun x y hx hy => smin16_tag0 x y hx hy)
    (Tag0_zip_right andnot16 C Q (fun x y hy => andnot16_tag0 x y hy) hQ) hTN

theorem strip_m1_pipeline (bs : Nat) (im im2 m1 i1 d1 E : Vec)
    (hp : MaskP im im2) (hm1 : B16 m1) (hi1 : B16 i1) (hd1 : B16 d1)
    (hE : Tag0 E)
    (hlen : (vAdd (vMin (vOr im2 (vAndnot im m1)) (vMin i1 d1)) E).length = bs) :
    stripV (setTagM bs (vAdd (vMin (vOr im2 (vAndnot im m1)) (vMin i1 d1)) E)) =
      vAdd (vMin (vOr im2 (vAndnot im (stripV m1))) (vMin (stripV i1) (stripV d1))) E := by
  have hor : B16 (vOr im2 (vAndnot im m1)) :=
    B16_or _ _ (maskP_B16_right hp) (B16_andnot _ _ hm1)
  have hmm : B16 (vMin (vOr im2 (vAndnot im m1)) (vMin i1 d1)) :=
    B16_min _ _ hor (B16_min _ _ hi1 hd1)
  rw [stripV_setTagM bs _ hlen (B16_add _ _), stripV_vAdd _ _ hmm hE,
    stripV_vMin _ _ hor (B16_min _ _ hi1 hd1), stripV_vMin _ _ hi1 hd1,
    stripV_initmix _ _ _ hp hm1]

theorem strip_d1_pipeline (bs : Nat) (im im2 m2 i2 d2 ge goS : Vec)
    (hp : MaskP im im2) (hm2 : B16 m2) (hi2 : B16 i2) (hd2 : B16 d2)
    (hge : Tag0 ge) (hgoS : Tag0 goS)
    (hlen : (vInsert (vShiftUp (vMin (vAdd d2 ge)
      (vAdd (vMin (vOr im2 (vAndnot im m2)) i2) goS))) (infScore : Int) 0).length = bs) :
    stripV (setTagD bs (vInsert (vShiftUp (vMin (vAdd d2 ge)
        (vAdd (vMin (vOr im2 (vAndnot im m2)) i2) goS))) (infScore : Int) 0)) =
      vInsert (vShiftUp (vMin (vAdd (stripV d2) ge)
        (vAdd (vMin (vOr im2 (vAndnot im (stripV m2))) (stripV i2)) goS))) (infScore : Int) 0 := by
  have hor : B16 (vOr im2 (vAndnot im m2)) :=
    B16_or _ _ (maskP_B16_right hp) (B16_andnot _ _ hm2)
  have hinf : ofInt16 (infScore : Int) % 4 = 0 := by decide
  rw [stripV_setTagD bs _ hlen (B16_insert _ _ _ (B16_shiftUp _ (B16_min _ _ (B16_add _ _) (B16_add _ _)))),
    stripV_vInsert _ _ _ hinf, stripV_vShiftUp,
    stripV_vMin _ _ (B16_add _ _) (B16_add _ _),
    stripV_vAdd _ _ hd2 hge,
    stripV_vAdd _ _ (B16_min _ _ hor hi2) hgoS,
    stripV_vMin _ _ hor hi2,
    stripV_initmix _ _ _ hp hm2]

theorem strip_i1_pipeline (bs : Nat) (im im2 m2 i2 ge go nuc : Vec)
    (hp : MaskP im im2) (hm2 : B16 m2) (hi2 : B16 i2)
    (hge : Tag0 ge) (hgo : Tag0 go) (hnuc : Tag0 nuc)
    (hlen : (vAdd (vMin (vAdd i2 ge) (vAdd (vOr im2 (vAndnot im m2)) go)) nuc).length = bs) :
    stripV (setTagI bs (vAdd (vMin (vAdd i2 ge) (vAdd (vOr im2 (vAndnot im m2)) go)) nuc)) =
      vAdd (vMin (vAdd (stripV i2) ge) (vAdd (vOr im2 (vAndnot im (stripV m2))) go)) nuc := by
  have hor : B16 (vOr im2 (vAndnot im m2)) :=
    B16_or _ _ (maskP_B16_right hp) (B16_andnot _ _ hm2)
  rw [stripV_setTagI bs _ hlen (B16_add _ _),
    stripV_vAdd _ _ (B16_min _ _ (B16_add _ _) (B16_add _ _)) hnuc,
    stripV_vMin _ _ (B16_add _ _) (B16_add _ _),
    stripV_vAdd _ _ hi2 hge,
    stripV_vAdd _ _ hor hgo,
    stripV_initmix _ _ _ hp hm2]

theorem strip_ms_pipeline (bs : Nat) (im im2 m1 i1 d1 : Vec) (idx : Nat) (ms : Int)
    (c : Prop) [Decidable c]
    (hp : MaskP im im2) (hm1 : B16 m1) (hi1 : B16 i1) (hd1 : B16 d1) :
    stripInt (if c ∧ toInt16 (vExtract bs (vMin (vOr im2 (vAndnot im m1)) (vMin i1 d1)) idx) < ms
        then toInt16 (vExtract bs (vMin (vOr im2 (vAndnot im m1)) (vMin i1 d1)) idx) else ms) =
      if c then min (stripInt ms)
        (toInt16 (vExtract bs (vMin (vOr im2 (vAndnot im (stripV m1)))
          (vMin (stripV i1) (stripV d1))) (max 0 idx)))
      else stripInt ms := by
  have hor : B16 (vOr im2 (vAndnot im m1)) :=
    B16_or _ _ (maskP_B16_right hp) (B16_andnot _ _ hm1)
  have hmm : B16 (vMin (vOr im2 (vAndnot im m1)) (vMin i1 d1)) :=
    B16_min _ _ hor (B16_min _ _ hi1 hd1)
  have hmax : max 0 idx = idx := Nat.zero_max idx
  rw [hmax, ← stripV_initmix _ _ _ hp hm1, ← stripV_vMin _ _ hi1 hd1,
    ← stripV_vMin _ _ hor (B16_min _ _ hi1 hd1), vExtract_stripV]
  have hx : vExtract bs (vMin (vOr im2 (vAndnot im m1)) (vMin i1 d1)) idx < 65536 := hmm _
  rw [toInt16_strip _ hx, strip_min_update]

theorem strip_m2even_pipeline (im im2 m2 : Vec) (hp : MaskP im im2) (hm2 : B16 m2) :
    stripV (vOr im2 (vAndnot im m2)) = vOr im2 (vAndnot im (stripV m2)) :=
  stripV_initmix im im2 m2 hp hm2

/-! ## The even half step commutes with trace-bit erasure -/

theorem stepEvenA_strip (a : Args) (k : Nat) (st : AState)
    (hbs : 1 ≤ a.bs) (hw : WfA a.bs st) :
    stripS (stepEvenA a k st) = stepEvenS a k (stripS st) := by
  simp only [stepEvenA, stepEvenACore, stepEvenS, stripS, SState.mk.injEq, and_true,
    true_and, eq_self_iff_true]
  refine ⟨?_, ?_, ?_, ?_, ?_⟩
  · refine strip_m1_pipeline a.bs _ _ _ _ _ _ hw.maskP hw.bm1 hw.bi1 hw.bd1
      (Tag0_emission _ _ _ ?_ hw.ttn) ?_
    · exact Tag0_ite _ _ _
        (Tag0_insert _ _ _ (Tag0_shiftUp _ hw.tqq) (ofInt16_mul4_tag0 _))
        (Tag0_insert _ _ _ (Tag0_shiftUp _ hw.tqq) (ofInt16_mul4_tag0 _))
    · refine length_vZip _ _ _ ?_ ?_
      · exact length_vZip _ _ _ (length_vZip _ _ _ hw.lim2 (length_vZip _ _ _ hw.lim hw.lm1))
          (length_vZip _ _ _ hw.li1 hw.ld1)
      · refine length_vZip _ _ _ (length_vZip _ _ _ (length_vZip _ _ _ ?_ hw.ltw) ?_) hw.ltn
        · exact length_ite _ _ _ (length_vInsert _ _ _ (length_vShiftUp _ hw.lqw hbs))
            (length_vInsert _ _ _ (length_vShiftUp _ hw.lqw hbs))
        · exact length_ite _ _ _ (length_vInsert _ _ _ (length_vShiftUp _ hw.lqq hbs))
            (length_vInsert _ _ _ (length_vShiftUp _ hw.lqq hbs))
  · refine strip_i1_pipeline a.bs _ _ _ _ _ _ _ hw.maskP hw.bm2 hw.bi2
      hw.tge hw.tgo (Tag0_broadcast4 _ _) ?_
    · refine length_vZip _ _ _ (length_vZip _ _ _ (length_vZip _ _ _ hw.li2 hw.lge)
        (length_vZip _ _ _ (length_vZip _ _ _ hw.lim2 (length_vZip _ _ _ hw.lim hw.lm2))
          hw.lgo)) (length_vBroadcast _ _)
  · refine strip_d1_pipeline a.bs _ _ _ _ _ _ _ hw.maskP hw.bm2 hw.bi2 hw.bd2
      hw.tge (Tag0_shiftDown _ hw.tgo) ?_
    · refine length_vInsert _ _ _ (length_vShiftUp _ ?_ hbs)
      refine length_vZip _ _ _ (length_vZip _ _ _ hw.ld2 hw.lge)
        (length_vZip _ _ _ (length_vZip _ _ _ (length_vZip _ _ _ hw.lim2
          (length_vZip _ _ _ hw.lim hw.lm2)) hw.li2) (length_vShiftDown _ hw.lgo hbs))
  · exact strip_m2even_pipeline _ _ _ hw.maskP hw.bm2
  · exact strip_ms_pipeline a.bs _ _ _ _ _ _ _ _ hw.maskP hw.bm1 hw.bi1 hw.bd1

/-! ## The odd half step commutes with trace-bit erasure -/

theorem ofInt16_nscore_tag0 (b : Nat) :
    ofInt16 (if b = 78 then (nScore : Int) else (infScore : Int)) % 4 = 0 := by
  by_cases h : b = 78 <;> simp [h] <;> decide

theorem strip_m2odd_pipeline (bs : Nat) (m2 i2 d2 E : Vec)
    (hm2 : B16 m2) (hi2 : B16 i2) (hd2 : B16 d2) (hE : Tag0 E)
    (hlen : (vAdd (vMin m2 (vMin i2 d2)) E).length = bs) :
    stripV (setTagM bs (vAdd (vMin m2 (vMin i2 d2)) E)) =
      vAdd (vMin (stripV m2) (vMin (stripV i2) (stripV d2))) E := by
  rw [stripV_setTagM bs _ hlen (B16_add _ _),
    stripV_vAdd _ _ (B16_min _ _ hm2 (B16_min _ _ hi2 hd2)) hE,
    stripV_vMin _ _ hm2 (B16_min _ _ hi2 hd2), stripV_vMin _ _ hi2 hd2]

theorem strip_d2odd_pipeline (bs : Nat) (m1 i1 d1 ge go : Vec)
    (hm1 : B16 m1) (hi1 : B16 i1) (hd1 : B16 d1)
    (hge : Tag0 ge) (hgo : Tag0 go)
    (hlen : (vMin (vAdd d1 ge) (vAdd (vMin m1 i1) go)).length = bs) :
    stripV (setTagD bs (vMin (vAdd d1 ge) (vAdd (vMin m1 i1) go))) =
      vMin (vAdd (stripV d1) ge) (vAdd (vMin (stripV m1) (stripV i1)) go) := by
  rw [stripV_setTagD bs _ hlen (B16_min _ _ (B16_add _ _) (B16_add _ _)),
    stripV_vMin _ _ (B16_add _ _) (B16_add _ _),
    stripV_vAdd _ _ hd1 hge,
    stripV_vAdd _ _ (B16_min _ _ hm1 hi1) hgo,
    stripV_vMin _ _ hm1 hi1]

theorem strip_i2odd_pipeline (bs : Nat) (m1 i1 ge go nuc : Vec)
    (hm1 : B16 m1) (hi1 : B16 i1)
    (hge : Tag0 ge) (hgo : Tag0 go) (hnuc : Tag0 nuc)
    (hlen : (vInsert (vAdd (vMin (vAdd (vShiftDown i1) ge) (vAdd (vShiftDown m1) go)) nuc)
      (infScore : Int) (bs - 1)).length = bs) :
    stripV (setTagI bs (vInsert (vAdd (vMin (vAdd (vShiftDown i1) ge)
        (vAdd (vShiftDown m1) go)) nuc) (infScore : Int) (bs - 1))) =
      vInsert (vAdd (vMin (vAdd (vShiftDown (stripV i1)) ge)
        (vAdd (vShiftDown (stripV m1)) go)) nuc) (infScore : Int) (bs - 1) := by
  have hinf : ofInt16 (infScore : Int) % 4 = 0 := by decide
  rw [stripV_setTagI bs _ hlen (B16_insert _ _ _ (B16_add _ _)),
    stripV_vInsert _ _ _ hinf,
    stripV_vAdd _ _ (B16_min _ _ (B16_add _ _) (B16_add _ _)) hnuc,
    stripV_vMin _ _ (B16_add _ _) (B16_add _ _),
    stripV_vAdd _ _ (B16_shiftDown _ hi1) hge,
    stripV_vAdd _ _ (B16_shiftDown _ hm1) hgo,
    stripV_vShiftDown, stripV_vShiftDown]

theorem strip_msodd_pipeline (bs : Nat) (m2 i2 d2 : Vec) (idx : Nat) (ms : Int)
    (c : Prop) [Decidable c]
    (hm2 : B16 m2) (hi2 : B16 i2) (hd2 : B16 d2) :
    stripInt (if c ∧ toInt16 (vExtract bs (vMin m2 (vMin i2 d2)) idx) < ms
        then toInt16 (vExtract bs (vMin m2 (vMin i2 d2)) idx) else ms) =
      if c then min (stripInt ms)
        (toInt16 (vExtract bs (vMin (stripV m2) (vMin (stripV i2) (stripV d2))) idx))
      else stripInt ms := by
  have hmm : B16 (vMin m2 (vMin i2 d2)) := B16_min _ _ hm2 (B16_min _ _ hi2 hd2)
  have hx : vExtract bs (vMin m2 (vMin i2 d2)) idx < 65536 := hmm _
  rw [← stripV_vMin _ _ hi2 hd2, ← stripV_vMin _ _ hm2 (B16_min _ _ hi2 hd2), vExtract_stripV,
    toInt16_strip _ hx, strip_min_update]

theorem stepOddA_strip (a : Args) (k : Nat) (st : AState)
    (hbs : 1 ≤ a.bs) (hw : WfA a.bs st) :
    stripS (stepOddA a k st) = stepOddS a k (stripS st) := by
  simp only [stepOddA, stepOddACore, stepOddS, stripS, SState.mk.injEq, and_true,
    true_and, eq_self_iff_true]
  refine ⟨?_, ?_, ?_, ?_⟩
  · refine strip_m2odd_pipeline a.bs _ _ _ _ hw.bm2 hw.bi2 hw.bd2
      (Tag0_emission _ _ _ hw.tqq ?_) ?_
    · exact Tag0_insert _ _ _ (Tag0_shiftDown _ hw.ttn) (ofInt16_nscore_tag0 _)
    · refine length_vZip _ _ _ (length_vZip _ _ _ hw.lm2 (length_vZip _ _ _ hw.li2 hw.ld2)) ?_
      refine length_vZip _ _ _ (length_vZip _ _ _ (length_vZip _ _ _ hw.lqw ?_) hw.lqq) ?_
      · exact length_vInsert _ _ _ (length_vShiftDown _ hw.ltw hbs)
      · exact length_vInsert _ _ _ (length_vShiftDown _ hw.ltn hbs)
  · refine strip_i2odd_pipeline a.bs _ _ _ _ _ hw.bm1 hw.bi1
      (Tag0_insert _ _ _ (Tag0_shiftDown _ hw.tge) (ofInt16_mul4_tag0 _))
      (Tag0_insert _ _ _ (Tag0_shiftDown _ hw.tgo) (ofInt16_mul4_tag0 _))
      (Tag0_broadcast4 _ _) ?_
    · refine length_vInsert _ _ _ (length_vZip _ _ _ (length_vZip _ _ _ ?_ ?_)
        (length_vBroadcast _ _))
      · exact length_vZip _ _ _ (length_vShiftDown _ hw.li1 hbs)
          (length_vInsert _ _ _ (length_vShiftDown _ hw.lge hbs))
      · exact length_vZip _ _ _ (length_vShiftDown _ hw.lm1 hbs)
          (length_vInsert _ _ _ (length_vShiftDown _ hw.lgo hbs))
  · refine strip_d2odd_pipeline a.bs _ _ _ _ _ hw.bm1 hw.bi1 hw.bd1
      (Tag0_insert _ _ _ (Tag0_shiftDown _ hw.tge) (ofInt16_mul4_tag0 _))
      (Tag0_insert _ _ _ (Tag0_shiftDown _ hw.tgo) (ofInt16_mul4_tag0 _)) ?_
    · refine length_vZip _ _ _ (length_vZip _ _ _ hw.ld1 ?_)
        (length_vZip _ _ _ (length_vZip _ _ _ hw.lm1 hw.li1) ?_)
      · exact length_vInsert _ _ _ (length_vShiftDown _ hw.lge hbs)
      · exact length_vInsert _ _ _ (length_vShiftDown _ hw.lgo hbs)
  · exact strip_msodd_pipeline a.bs _ _ _ _ _ _ hw.bm2 hw.bi2 hw.bd2

/-! ## Well-formedness is preserved by both half steps -/

theorem B16_setTagM (bs : Nat) (v : Vec) (hv : B16 v) : B16 (setTagM bs v) :=
  B16_andnot _ _ hv

theorem B16_ones (bs : Nat) : B16 (vShiftRightBits1 (vBroadcast bs 3)) := by
  intro i
  rcases getD_map_or (fun x => x / 2) (vBroadcast bs 3) i with h | h <;>
    rw [vShiftRightBits1] at * <;> rw [h]
  · have := B16_broadcast bs 3 i
    omega
  · norm_num

theorem B16_setTagI (bs : Nat) (v : Vec) (hv : B16 v) : B16 (setTagI bs v) :=
  B16_or _ _ (B16_andnot _ _ hv) (B16_ones bs)

theorem B16_setTagD (bs : Nat) (v : Vec) (hv : B16 v) : B16 (setTagD bs v) :=
  B16_or _ _ (B16_andnot _ _ hv) (B16_broadcast bs 3)

theorem length_setTagM (bs : Nat) (v : Vec) (hl : v.length = bs) :
    (setTagM bs v).length = bs :=
  length_vZip _ _ _ (length_vBroadcast _ _) hl

theorem length_ones (bs : Nat) : (vShiftRightBits1 (vBroadcast bs 3)).length = bs := by
  simp [vShiftRightBits1, vBroadcast]

theorem length_setTagI (bs : Nat) (v : Vec) (hl : v.length = bs) :
    (setTagI bs v).length = bs :=
  length_vZip _ _ _ (length_vZip _ _ _ (length_vBroadcast _ _) hl) (length_ones bs)

theorem length_setTagD (bs : Nat) (v : Vec) (hl : v.length = bs) :
    (setTagD bs v).length = bs :=
  length_vZip _ _ _ (length_vZip _ _ _ (length_vBroadcast _ _) hl) (length_vBroadcast _ _)

theorem msLo_ite (c : Prop) [Decidable c] (cur ms : Int) (h : -32768 ≤ ms)
    (hc : -32768 ≤ cur) : -32768 ≤ (if c ∧ cur < ms then cur else ms) := by
  split_ifs with h1
  · exact hc
  · exact h

theorem stepEvenA_wf (a : Args) (k : Nat) (st : AState)
    (hbs : 1 ≤ a.bs) (hw : WfA a.bs st) : WfA a.bs (stepEvenA a k st) := by
  have hTGTl : ∀ z : Int, (vInsert (vShiftUp st.targetwin) z 0).length = a.bs :=
    fun z => length_vInsert _ _ _ (length_vShiftUp _ hw.lqw hbs)
  have hQWl : ∀ z : Int, (vInsert (vShiftUp st.qualitieswin) z 0).length = a.bs :=
    fun z => length_vInsert _ _ _ (length_vShiftUp _ hw.lqq hbs)
  have hm2orl : (vOr st.initmask2 (vAndnot st.initmask st.m2)).length = a.bs :=
    length_vZip _ _ _ hw.lim2 (length_vZip _ _ _ hw.lim hw.lm2)
  have hm1orl : (vOr st.initmask2 (vAndnot st.initmask st.m1)).length = a.bs :=
    length_vZip _ _ _ hw.lim2 (length_vZip _ _ _ hw.lim hw.lm1)
  have hEl : ∀ tq qq : Vec, tq.length = a.bs → qq.length = a.bs →
      (vMin (vAndnot (vCmpeq tq st.truthwin) qq) st.truthnqual).length = a.bs :=
    fun tq qq h1 h2 =>
      length_vZip _ _ _ (length_vZip _ _ _ (length_vZip _ _ _ h1 hw.ltw) h2) hw.ltn
  simp only [stepEvenA, stepEvenACore]
  refine ⟨?_, ?_, ?_, ?_, ?_, ?_, ?_, ?_, ?_, ?_, ?_, ?_, ?_, ?_, ?_, ?_, ?_, ?_, ?_, ?_,
    ?_, ?_, ?_, ?_, ?_, ?_, ?_, ?_, ?_, ?_, ?_, ?_⟩
  · refine length_setTagM _ _ (length_vZip _ _ _ (length_vZip _ _ _ hm1orl
      (length_vZip _ _ _ hw.li1 hw.ld1)) ?_)
    exact length_vZip _ _ _ (length_vZip _ _ _ (length_vZip _ _ _
      (length_ite _ _ _ (hTGTl _) (hTGTl _)) hw.ltw)
      (length_ite _ _ _ (hQWl _) (hQWl _))) hw.ltn
  · exact length_setTagI _ _ (length_vZip _ _ _ (length_vZip _ _ _
      (length_vZip _ _ _ hw.li2 hw.lge) (length_vZip _ _ _ hm2orl hw.lgo))
      (length_vBroadcast _ _))
  · exact length_setTagD _ _ (length_vInsert _ _ _ (length_vShiftUp _
      (length_vZip _ _ _ (length_vZip _ _ _ hw.ld2 hw.lge)
        (length_vZip _ _ _ (length_vZip _ _ _ hm2orl hw.li2)
          (length_vShiftDown _ hw.lgo hbs))) hbs))
  · exact hm2orl
  · exact hw.li2
  · exact hw.ld2
  · exact hw.ltw
  · exact length_ite _ _ _ (hTGTl _) (hTGTl _)
  · exact length_ite _ _ _ (hQWl _) (hQWl _)
  · exact hw.lgo
  · exact hw.lge
  · exact hw.ltn
  · exact hw.lim
  · exact hw.lim2
  · exact B16_setTagM _ _ (B16_add _ _)
  · exact B16_setTagI _ _ (B16_add _ _)
  · exact B16_setTagD _ _ (B16_insert _ _ _ (B16_shiftUp _
      (B16_min _ _ (B16_add _ _) (B16_add _ _))))
  · exact B16_or _ _ (maskP_B16_right hw.maskP) (B16_andnot _ _ hw.bm2)
  · exact hw.bi2
  · exact hw.bd2
  · exact hw.btw
  · exact B16_ite _ _ _ (B16_insert _ _ _ (B16_shiftUp _ hw.bqw))
      (B16_insert _ _ _ (B16_shiftUp _ hw.bqw))
  · exact Tag0_ite _ _ _
      (Tag0_insert _ _ _ (Tag0_shiftUp _ hw.tqq) (ofInt16_mul4_tag0 _))
      (Tag0_insert _ _ _ (Tag0_shiftUp _ hw.tqq) (ofInt16_mul4_tag0 _))
  · exact B16_ite _ _ _ (B16_insert _ _ _ (B16_shiftUp _ hw.bqq))
      (B16_insert _ _ _ (B16_shiftUp _ hw.bqq))
  · exact hw.tgo
  · exact hw.bgo
  · exact hw.tge
  · exact hw.bge
  · exact hw.ttn
  · exact hw.btn
  · exact hw.maskP
  · exact msLo_ite _ _ _ hw.msLo (toInt16_lower _)

theorem stepOddA_wf (a : Args) (k : Nat) (st : AState)
    (hbs : 1 ≤ a.bs) (hw : WfA a.bs st) : WfA a.bs (stepOddA a k st) := by
  have hTWl : ∀ z : Int, (vInsert (vShiftDown st.truthwin) z (a.bs - 1)).length = a.bs :=
    fun z => length_vInsert _ _ _ (length_vShiftDown _ hw.ltw hbs)
  have hTNl : ∀ z : Int, (vInsert (vShiftDown st.truthnqual) z (a.bs - 1)).length = a.bs :=
    fun z => length_vInsert _ _ _ (length_vShiftDown _ hw.ltn hbs)
  have hGOl : ∀ z : Int, (vInsert (vShiftDown st.gapopen) z (a.bs - 1)).length = a.bs :=
    fun z => length_vInsert _ _ _ (length_vShiftDown _ hw.lgo hbs)
  have hGEl : ∀ z : Int, (vInsert (vShiftDown st.gapextend) z (a.bs - 1)).length = a.bs :=
    fun z => length_vInsert _ _ _ (length_vShiftDown _ hw.lge hbs)
  simp only [stepOddA, stepOddACore]
  refine ⟨?_, ?_, ?_, ?_, ?_, ?_, ?_, ?_, ?_, ?_, ?_, ?_, ?_, ?_, ?_, ?_, ?_, ?_, ?_, ?_,
    ?_, ?_, ?_, ?_, ?_, ?_, ?_, ?_, ?_, ?_, ?_, ?_⟩
  · exact hw.lm1
  · exact hw.li1
  · exact hw.ld1
  · refine length_setTagM _ _ (length_vZip _ _ _ (length_vZip _ _ _ hw.lm2
      (length_vZip _ _ _ hw.li2 hw.ld2)) ?_)
    exact length_vZip _ _ _ (length_vZip _ _ _ (length_vZip _ _ _ hw.lqw (hTWl _))
      hw.lqq) (hTNl _)
  · exact length_setTagI _ _ (length_vInsert _ _ _ (length_vZip _ _ _
      (length_vZip _ _ _ (length_vZip _ _ _ (length_vShiftDown _ hw.li1 hbs) (hGEl _))
        (length_vZip _ _ _ (length_vShiftDown _ hw.lm1 hbs) (hGOl _)))
      (length_vBroadcast _ _)))
  · exact length_setTagD _ _ (length_vZip _ _ _ (length_vZip _ _ _ hw.ld1 (hGEl _))
      (length_vZip _ _ _ (length_vZip _ _ _ hw.lm1 hw.li1) (hGOl _)))
  · exact hTWl _
  · exact hw.lqw
  · exact hw.lqq
  · exact hGOl _
  · exact hGEl _
  · exact hTNl _
  · exact length_vShiftUp _ hw.lim hbs
  · exact length_vShiftUp _ hw.lim2 hbs
  · exact hw.bm1
  · exact hw.bi1
  · exact hw.bd1
  · exact B16_setTagM _ _ (B16_add _ _)
  · exact B16_setTagI _ _ (B16_insert _ _ _ (B16_add _ _))
  · exact B16_setTagD _ _ (B16_min _ _ (B16_add _ _) (B16_add _ _))
  · exact B16_insert _ _ _ (B16_shiftDown _ hw.btw)
  · exact hw.bqw
  · exact hw.tqq
  · exact hw.bqq
  · exact Tag0_insert _ _ _ (Tag0_shiftDown _ hw.tgo) (ofInt16_mul4_tag0 _)
  · exact B16_insert _ _ _ (B16_shiftDown _ hw.bgo)
  · exact Tag0_insert _ _ _ (Tag0_shiftDown _ hw.tge) (ofInt16_mul4_tag0 _)
  · exact B16_insert _ _ _ (B16_shiftDown _ hw.bge)
  · exact Tag0_insert _ _ _ (Tag0_shiftDown _ hw.ttn) (ofInt16_nscore_tag0 _)
  · exact B16_insert _ _ _ (B16_shiftDown _ hw.btn)
  · exact maskP_shiftUp _ _ (hw.lim.trans hw.lim2.symm) hw.maskP
  · exact msLo_ite _ _ _ hw.msLo (toInt16_lower _)

/-! ## One full iteration, and the whole loop -/

theorem stepA_strip (a : Args) (k : Nat) (st : AState)
    (hbs : 1 ≤ a.bs) (hw : WfA a.bs st) :
    stripS (stepA a k st) = stepS a k (stripS st) ∧ WfA a.bs (stepA a k st) := by
  constructor
  · rw [stepA, stepS, stepOddA_strip a k _ hbs (stepEvenA_wf a k st hbs hw),
      stepEvenA_strip a k st hbs hw]
  · exact stepOddA_wf a k _ hbs (stepEvenA_wf a k st hbs hw)

theorem runA_strip (a : Args) (n k : Nat) (st : AState)
    (hbs : 1 ≤ a.bs) (hw : WfA a.bs st) :
    stripS (runA a k n st) = runS a k n (stripS st) ∧ WfA a.bs (runA a k n st) := by
  induction n generalizing k st with
  | zero => exact ⟨rfl, hw⟩
  | succ m ih =>
    have hstep := stepA_strip a k st hbs hw
    have := ih (k + 1) (stepA a k st) hstep.2
    rw [runA, runS, hstep.1] at *
    exact this

/-! ## The initial states agree -/

theorem and16_tag0 (x y : Nat) (hy : y % 4 = 0) : and16 x y % 4 = 0 := by
  have h1 : and16 x y % 4 = Nat.land 3 (and16 x y) := (land_three_eq_mod _).symm
  rw [h1, land_eq_and, Nat.land_comm, and16, land_eq_and, Nat.land_assoc]
  have hy3 : y &&& 3 = 0 := by
    have := land_three_eq_mod y
    rw [and16, land_eq_and, Nat.land_comm] at this
    omega
  rw [hy3]
  simp

theorem getD_lt_of_forall (l : List Nat) (h : ∀ c ∈ l, c < 65536) (j : Nat) :
    l.getD j 0 < 65536 := by
  by_cases hj : j < l.length
  · rw [List.getD_eq_getElem l 0 hj]
    exact h _ (l.getElem_mem hj)
  · rw [List.getD_eq_default l 0 (by omega)]
    norm_num

theorem length_vLoadReverse (bs : Nat) (xs : List Nat) : (vLoadReverse bs xs).length = bs := by
  simp [vLoadReverse]

theorem length_vLoadReverseLshift (bs : Nat) (xs : List Int) (sh : Nat) :
    (vLoadReverseLshift bs xs sh).length = bs := by
  simp [vLoadReverseLshift]

theorem B16_vLoadReverse (bs : Nat) (xs : List Nat) (h : ∀ c ∈ xs, c < 65536) :
    B16 (vLoadReverse bs xs) := by
  intro i
  rcases getD_map_or (fun j => xs.getD j 0) (List.range bs) i with he | he <;>
    rw [vLoadReverse] at * <;> rw [he]
  · exact getD_lt_of_forall xs h _
  · norm_num

theorem B16_vLoadReverseLshift (bs : Nat) (xs : List Int) (sh : Nat) :
    B16 (vLoadReverseLshift bs xs sh) := by
  intro i
  rcases getD_map_or (fun j => ofInt16 (xs.getD j 0 * 2 ^ sh)) (List.range bs) i with he | he <;>
    rw [vLoadReverseLshift] at * <;> rw [he]
  · exact ofInt16_lt _
  · norm_num

theorem Tag0_vLoadReverseLshift2 (bs : Nat) (xs : List Int) :
    Tag0 (vLoadReverseLshift bs xs traceBits) := by
  intro i
  rcases getD_map_or (fun j => ofInt16 (xs.getD j 0 * 2 ^ traceBits)) (List.range bs) i with
    he | he <;> rw [vLoadReverseLshift] at * <;> rw [he]
  exact ofInt16_mul4_tag0 _

theorem Tag0_truthnqual_init (bs : Nat) (tw : Vec) :
    Tag0 (vAdd (vAnd (vCmpeq tw (vBroadcast bs 78)) (vBroadcast bs (toInt16 nScoreMInf)))
      (vBroadcast bs (infScore : Int))) := by
  apply Tag0_zip add16 _ _ (fun x y hx hy => add16_tag0 x y hx hy)
  · apply Tag0_zip_right and16 _ _ (fun x y hy => and16_tag0 x y hy)
    intro i
    rcases getD_replicate_or (ofInt16 (toInt16 nScoreMInf)) bs i with h | h <;>
      rw [vBroadcast] at * <;> rw [h]
    decide
  · intro i
    rcases getD_replicate_or (ofInt16 (infScore : Int)) bs i with h | h <;>
      rw [vBroadcast] at * <;> rw [h]
    decide

theorem maskP_init (bs : Nat) :
    MaskP (vZeroSetLast bs (-1)) (vZeroSetLast bs (-(bitmaskC : Int))) := by
  intro i
  cases i with
  | zero =>
    left
    constructor <;> rfl
  | succ j =>
    right
    simp only [vZeroSetLast, List.getD_cons_succ]
    constructor <;>
      rcases getD_replicate_or 0 (bs - 1) j with h | h <;> simp [h]

theorem stripV_of_Tag0 (v : Vec) (h : ∀ x ∈ v, x % 4 = 0) : stripV v = v := by
  simp only [stripV]
  rw [List.map_congr_left (fun x hx => strip16_eq_of_tag0 x (h x hx))]
  exact List.map_id v

theorem stripV_broadcast_inf (bs : Nat) :
    stripV (vBroadcast bs (infScore : Int)) = vBroadcast bs (infScore : Int) := by
  apply stripV_of_Tag0
  intro x hx
  have := List.eq_of_mem_replicate hx
  subst this
  decide

theorem initA_strip (a : Args) : stripS (initA a) = initS a := by
  simp only [initA, initS, stripS, SState.mk.injEq, stripV_broadcast_inf, and_true,
    true_and, eq_self_iff_true]
  decide

theorem initA_wf (a : Args) (hbs : 1 ≤ a.bs) (htr : ∀ c ∈ a.truth, c < 65536) :
    WfA a.bs (initA a) := by
  have hinfB : B16 (vBroadcast a.bs (infScore : Int)) := B16_broadcast _ _
  have hinfL : (vBroadcast a.bs (infScore : Int)).length = a.bs := length_vBroadcast _ _
  refine ⟨hinfL, hinfL, hinfL, hinfL, hinfL, hinfL, length_vLoadReverse _ _, hinfL,
    length_vBroadcast _ _, length_vLoadReverseLshift _ _ _, length_vLoadReverseLshift _ _ _,
    ?_, ?_, ?_, hinfB, hinfB, hinfB, hinfB, hinfB, hinfB, B16_vLoadReverse _ _ htr, hinfB,
    Tag0_broadcast4 _ _, B16_broadcast _ _, Tag0_vLoadReverseLshift2 _ _,
    B16_vLoadReverseLshift _ _ _, Tag0_vLoadReverseLshift2 _ _, B16_vLoadReverseLshift _ _ _,
    Tag0_truthnqual_init _ _, B16_add _ _, maskP_init _, ?_⟩
  · exact length_vZip _ _ _ (length_vZip _ _ _
      (length_vZip _ _ _ (length_vLoadReverse _ _) (length_vBroadcast _ _))
      (length_vBroadcast _ _)) (length_vBroadcast _ _)
  · simp only [initA, vZeroSetLast, List.length_cons, List.length_replicate]
    omega
  · simp only [initA, vZeroSetLast, List.length_cons, List.length_replicate]
    omega
  · simp only [initA]
    decide

/-! ## The score-only overload agrees with the alignment overload's score -/

theorem alignTrace_score_cases (a : Args) (b1 b2 : List Nat) :
    (alignTrace a b1 b2).score = -1 ∨
      (alignTrace a b1 b2).score =
        finalScore (runA a 0 (iterCount a) (initA a)).minscore := by
  simp only [alignTrace]
  split
  · left; rfl
  · split
    · left; rfl
    · split
      · right; rfl
      · left; rfl
      · left; rfl

theorem finalScore_stripInt (m : Int) (h : -32768 ≤ m) :
    finalScore (stripInt m) = finalScore m := by
  simp only [finalScore, stripInt, bitmaskC]
  omega

/-- C2: for every input satisfying the shape precondition, the score
returned by the score-only `align` overload equals the score returned by the
alignment-recovering overload whenever the latter does not signal overflow
(signalled by `-1`; every non-overflow return is `≥ 0`). -/
theorem score_only_align_agree (a : Args) (b1 b2 : List Nat)
    (hbs : 1 ≤ a.bs)
    (hshape : a.bs < a.truthLen ∧ a.truthLen = a.targetLen + 2 * a.bs - 1 ∧
      a.quals.length = a.targetLen ∧ a.gapOpen.length = a.truthLen ∧
      a.gapExtend.length = a.truthLen)
    (htr : ∀ c ∈ a.truth, c < 65536)
    (hok : 0 ≤ (alignTrace a b1 b2).score) :
    alignScore a = (alignTrace a b1 b2).score := by
  rcases alignTrace_score_cases a b1 b2 with h | h
  · omega
  · rw [h, alignScore]
    have hrun := runA_strip a (iterCount a) 0 (initA a) hbs (initA_wf a hbs htr)
    have hms := hrun.2.msLo
    have h1 : runS a 0 (iterCount a) (initS a) =
        stripS (runA a 0 (iterCount a) (initA a)) := by
      rw [← initA_strip a, hrun.1]
    rw [h1]
    exact finalScore_stripInt _ hms

set_option maxRecDepth 100000 in
set_option maxHeartbeats 1000000 in
/-- Witness for C2 at the repository's third test case. -/
theorem score_only_align_agree_witness :
    (1 ≤ hmmTest3.bs ∧
      hmmTest3.bs < hmmTest3.truthLen ∧
      hmmTest3.truthLen = hmmTest3.targetLen + 2 * hmmTest3.bs - 1 ∧
      hmmTest3.quals.length = hmmTest3.targetLen ∧
      hmmTest3.gapOpen.length = hmmTest3.truthLen ∧
      hmmTest3.gapExtend.length = hmmTest3.truthLen ∧
      (∀ c ∈ hmmTest3.truth, c < 65536) ∧
      0 ≤ (alignTrace hmmTest3 (zeroBuf 39) (zeroBuf 39)).score) ∧
    alignScore hmmTest3 = (alignTrace hmmTest3 (zeroBuf 39) (zeroBuf 39)).score := by
  refine ⟨⟨by decide, by decide, by decide, by decide, by decide, by decide, by decide,
    by decide⟩, ?_⟩
  exact score_only_align_agree hmmTest3 (zeroBuf 39) (zeroBuf 39) (by decide)
    ⟨by decide, by decide, by decide, by decide, by decide⟩ (by decide) (by decide)

/-! ## The backtrace walk: termination and emitted-string structure -/

/-- C10: the backtrace loop terminates for every input and every possible
content of the back-pointer buffer.  Each iteration strictly decreases the
half-step index `s` (by 2 in state M, by 1 in states I and D) and the loop
exits as soon as `y` reaches 0 or `s` or `i` becomes negative, so a fuel of
`(s + 2).toNat` (and at least one step) always suffices to reach an answer,
whatever the buffer holds. -/
theorem backtrace_terminates (bs : Nat) (truth target flat : List Nat)
    (fuel : Nat) (s i : Int) (y : Nat) (x : Int) (state : Nat) (e1 e2 : List Nat)
    (hfe : (s + 2).toNat ≤ fuel) (hf1 : 1 ≤ fuel) :
    ∃ r, walkAux bs truth target flat fuel s i y x state e1 e2 = some r := by
  induction fuel generalizing s i y x state e1 e2 with
  | zero => omega
  | succ f ih =>
    cases y with
    | zero => exact ⟨_, rfl⟩
    | succ y' =>
      by_cases hneg : s < 0 ∨ i < 0
      · simp only [walkAux]
        rw [if_pos hneg]
        exact ⟨_, rfl⟩
      · push_neg at hneg
        have hs : 0 ≤ s := by omega
        simp only [walkAux]
        rw [if_neg (show ¬ (s < 0 ∨ i < 0) by omega)]
        split_ifs with h1 h2
        · exact ih _ _ _ _ _ _ _ (by omega) (by omega)
        · exact ih _ _ _ _ _ _ _ (by omega) (by omega)
        · exact ih _ _ _ _ _ _ _ (by omega) (by omega)

/-- Witness for C10 at a concrete buffer and seed. -/
theorem backtrace_terminates_witness :
    (((2 : Int) + 2).toNat ≤ 4 ∧ 1 ≤ 4) ∧
      ∃ r, walkAux 8 [65] [67] [0, 0, 0] 4 2 0 1 1 0 [] [] = some r :=
  ⟨⟨by decide, by decide⟩, backtrace_terminates 8 [65] [67] [0, 0, 0] 4 2 0 1 1 0 [] []
    (by decide) (by decide)⟩

theorem getD_ne_gap (l : List Nat) (h : ¬ gapLabel ∈ l) (j : Nat) : l.getD j 0 ≠ gapLabel := by
  by_cases hj : j < l.length
  · rw [List.getD_eq_getElem l 0 hj]
    intro hc
    exact h (hc ▸ l.getElem_mem hj)
  · rw [List.getD_eq_default l 0 (by omega)]
    rw [gapLabel]
    norm_num

theorem truthAt_ne_gap (truth : List Nat) (h : ¬ gapLabel ∈ truth) (z : Int) :
    truthAt truth z ≠ gapLabel := by
  rw [truthAt]
  split_ifs
  · rw [gapLabel]
    norm_num
  · exact getD_ne_gap truth h _

theorem stripGaps_cons_keep (c : Nat) (l : List Nat) (h : c ≠ gapLabel) :
    stripGaps (c :: l) = c :: stripGaps l := by
  simp [stripGaps, h]

theorem stripGaps_cons_gap (l : List Nat) : stripGaps (gapLabel :: l) = stripGaps l := by
  simp [stripGaps]

theorem take_snoc (l : List Nat) (n : Nat) (h : n < l.length) :
    l.take (n + 1) = l.take n ++ [l.getD n 0] := by
  rw [List.getD_eq_getElem l 0 h, ← List.take_concat_get l n h, List.concat_eq_append]

theorem truthSeg_nil (truth : List Nat) (x : Int) : truthSeg truth x x = [] := by
  simp [truthSeg]

theorem truthSeg_snoc (truth : List Nat) (lo hi : Int) (h : lo ≤ hi) :
    truthSeg truth lo (hi + 1) = truthSeg truth lo hi ++ [truthAt truth hi] := by
  have h1 : (hi + 1 - lo).toNat = (hi - lo).toNat + 1 := by omega
  rw [truthSeg, h1, List.range_succ, List.map_append]
  rw [truthSeg]
  congr 1
  simp only [List.map_cons, List.map_nil]
  congr 2
  simp only [Int.ofNat_eq_coe]
  omega

theorem countGaps_split (l : List Nat) : countGaps l + (stripGaps l).length = l.length := by
  induction l with
  | nil => rfl
  | cons c cs ih =>
    by_cases h : c = gapLabel
    · subst h
      have h1 : countGaps (gapLabel :: cs) = countGaps cs + 1 := by
        simp [countGaps, List.filter_cons]
      rw [h1, stripGaps_cons_gap, List.length_cons]
      omega
    · have h1 : countGaps (c :: cs) = countGaps cs := by
        simp [countGaps, List.filter_cons, h]
      rw [h1, stripGaps_cons_keep c cs h, List.length_cons, List.length_cons]
      omega

theorem walkAux_done_spec (bs : Nat) (truth target flat : List Nat)
    (h45t : ¬ gapLabel ∈ truth) (h45q : ¬ gapLabel ∈ target) :
    ∀ fuel (s i : Int) (y : Nat) (x : Int) (state : Nat) (e1 e2 E1 E2 : List Nat) (xf : Int),
      walkAux bs truth target flat fuel s i y x state e1 e2 = some (WalkRes.done E1 E2 xf) →
      x = s - y + 2 → -2 ≤ s → y ≤ target.length →
      0 ≤ xf ∧ xf ≤ x ∧
      stripGaps E2 = target.take y ++ stripGaps e2 ∧
      stripGaps E1 = truthSeg truth xf x ++ stripGaps e1 ∧
      E1.length + e2.length = E2.length + e1.length := by
  intro fuel
  induction fuel with
  | zero => intro s i y x state e1 e2 E1 E2 xf hw; cases hw
  | succ f ih =>
    intro s i y x state e1 e2 E1 E2 xf hw hx hs hy
    cases y with
    | zero =>
      simp only [walkAux, Option.some.injEq, WalkRes.done.injEq] at hw
      obtain ⟨he1, he2, hxf⟩ := hw
      subst he1; subst he2; subst hxf
      refine ⟨by omega, le_refl x, by simp, ?_, by omega⟩
      rw [truthSeg_nil]
      simp
    | succ y' =>
      simp only [walkAux] at hw
      by_cases hneg : s < 0 ∨ i < 0
      · rw [if_pos hneg] at hw
        simp at hw
      · push_neg at hneg
        have hs0 : 0 ≤ s := by omega
        rw [if_neg (show ¬ (s < 0 ∨ i < 0) by omega)] at hw
        split_ifs at hw with h1 h2
        · -- match step
          have := ih _ _ _ _ _ _ _ _ _ _ hw (by omega) (by omega) (by omega)
          obtain ⟨c1, c2, c3, c4, c5⟩ := this
          refine ⟨c1, by omega, ?_, ?_, ?_⟩
          · rw [c3, stripGaps_cons_keep _ _ (getD_ne_gap target h45q y'),
              take_snoc target y' (by omega)]
            simp
          · rw [c4, stripGaps_cons_keep _ _ (truthAt_ne_gap truth h45t (x - 1))]
            have hxx : x = (x - 1) + 1 := by omega
            rw [hxx, truthSeg_snoc truth xf (x - 1) (by omega)]
            simp
          · simp only [List.length_cons] at c5
            omega
        · -- insert step
          have := ih _ _ _ _ _ _ _ _ _ _ hw (by omega) (by omega) (by omega)
          obtain ⟨c1, c2, c3, c4, c5⟩ := this
          refine ⟨c1, c2, ?_, ?_, ?_⟩
          · rw [c3, stripGaps_cons_keep _ _ (getD_ne_gap target h45q y'),
              take_snoc target y' (by omega)]
            simp
          · rw [c4, stripGaps_cons_gap]
          · simp only [List.length_cons] at c5
            omega
        · -- delete step
          have := ih _ _ _ _ _ _ _ _ _ _ hw (by omega) (by omega) (by omega)
          obtain ⟨c1, c2, c3, c4, c5⟩ := this
          refine ⟨c1, by omega, ?_, ?_, ?_⟩
          · rw [c3, stripGaps_cons_gap]
          · rw [c4, stripGaps_cons_keep _ _ (truthAt_ne_gap truth h45t (x - 1))]
            have hxx : x = (x - 1) + 1 := by omega
            rw [hxx, truthSeg_snoc truth xf (x - 1) (by omega)]
            simp
          · simp only [List.length_cons] at c5
            omega

/-! ## In-range lane reads -/

theorem getD_zipWith_lt (f : Nat → Nat → Nat) (a b : List Nat) (i : Nat)
    (ha : i < a.length) (hb : i < b.length) :
    (List.zipWith f a b).getD i 0 = f (a.getD i 0) (b.getD i 0) := by
  induction a generalizing b i with
  | nil => simp at ha
  | cons x xs ih =>
    cases b with
    | nil => simp at hb
    | cons y ys =>
      cases i with
      | zero => simp
      | succ j =>
        simp only [List.zipWith_cons_cons, List.getD_cons_succ]
        exact ih ys j (by simpa using ha) (by simpa using hb)

theorem getD_map_lt (f : Nat → Nat) (v : List Nat) (i : Nat) (h : i < v.length) :
    (v.map f).getD i 0 = f (v.getD i 0) := by
  induction v generalizing i with
  | nil => simp at h
  | cons x xs ih =>
    cases i with
    | zero => simp
    | succ j =>
      simp only [List.map_cons, List.getD_cons_succ]
      exact ih j (by simpa using h)

theorem getD_replicate_lt (c n i : Nat) (h : i < n) : (List.replicate n c).getD i 0 = c := by
  induction n generalizing i with
  | zero => omega
  | succ m ih =>
    cases i with
    | zero => simp
    | succ j =>
      simp only [List.replicate_succ, List.getD_cons_succ]
      exact ih j (by omega)

theorem getD_set_eq (l : List Nat) (n x : Nat) (h : n < l.length) :
    (l.set n x).getD n 0 = x := by
  induction l generalizing n with
  | nil => simp at h
  | cons z zs ih =>
    cases n with
    | zero => simp
    | succ m =>
      simp only [List.set_cons_succ, List.getD_cons_succ]
      exact ih m (by simpa using h)

theorem getD_set_ne (l : List Nat) (n x j : Nat) (h : j ≠ n) :
    (l.set n x).getD j 0 = l.getD j 0 := by
  induction l generalizing n j with
  | nil => simp
  | cons z zs ih =>
    cases n with
    | zero =>
      cases j with
      | zero => omega
      | succ jj => simp
    | succ m =>
      cases j with
      | zero => simp
      | succ jj =>
        simp only [List.set_cons_succ, List.getD_cons_succ]
        exact ih m jj (by omega)

theorem getD_append_lt (l l2 : List Nat) (j : Nat) (h : j < l.length) :
    (l ++ l2).getD j 0 = l.getD j 0 := by
  induction l generalizing j with
  | nil => simp at h
  | cons z zs ih =>
    cases j with
    | zero => simp
    | succ jj =>
      simp only [List.cons_append, List.getD_cons_succ]
      exact ih jj (by simpa using h)

/-! ## Low-bit facts for the back-pointer packing -/

theorem land_lor_distrib (a b c : Nat) :
    Nat.land a (Nat.lor b c) = Nat.lor (Nat.land a b) (Nat.land a c) := by
  apply Nat.eq_of_testBit_eq
  intro j
  simp [land_eq_and, lor_eq_or, Nat.testBit_and, Nat.testBit_or, Bool.and_or_distrib_left]

theorem lor_mod4 (u v : Nat) (hu : u % 4 = 0) (hv : v < 4) : Nat.lor u v % 4 = v := by
  have h1 : Nat.lor u v % 4 = and16 3 (Nat.lor u v) := (land_three_eq_mod _).symm
  rw [h1, and16, land_lor_distrib]
  have h2 : Nat.land 3 u = 0 := by
    have := land_three_eq_mod u
    rw [and16] at this
    omega
  have h3 : Nat.land 3 v = v := by
    have := land_three_eq_mod v
    rw [and16] at this
    omega
  rw [h2, h3, lor_eq_or, Nat.zero_or]

theorem andnot3_tag0 (x : Nat) : andnot16 3 x % 4 = 0 := by
  have h1 : andnot16 3 x = and16 x 65532 := by
    rw [andnot16, and16, land_eq_and, land_eq_and]
    rw [show Nat.xor 3 65535 = 65532 from by decide, Nat.land_comm]
  rw [h1]
  exact and16_tag0 x 65532 (by decide)

theorem ofInt16_natCast (n : Nat) (h : n < 65536) : ofInt16 (n : Int) = n := by
  simp only [ofInt16]
  omega

theorem toInt16_smin16_le_right (a b : Nat) : toInt16 (smin16 a b) ≤ toInt16 b := by
  rw [smin16]
  split_ifs with h
  · exact h
  · exact le_refl _

/-! ## Reading the truth segment as a substring -/

theorem truthSeg_eq_drop_take (truth : List Nat) (lo hi : Int)
    (h0 : 0 ≤ lo) (hle : lo ≤ hi) (hhi : hi ≤ (truth.length : Int)) :
    truthSeg truth lo hi = (truth.drop lo.toNat).take (hi - lo).toNat := by
  apply List.ext_getElem
  · simp only [truthSeg, List.length_map, List.length_range, List.length_take,
      List.length_drop]
    omega
  · intro j hj1 hj2
    simp only [truthSeg, List.length_map, List.length_range] at hj1
    simp only [truthSeg, List.getElem_map, List.getElem_range, Int.ofNat_eq_coe]
    rw [truthAt, if_neg (by omega)]
    rw [List.getElem_take, List.getElem_drop]
    rw [List.getD_eq_getElem truth 0 (by omega)]
    congr 1
    omega

/-! ## Dissecting the alignment overload's result -/

theorem alignTrace_shape (a : Args) (b1 b2 : List Nat) :
    ((alignTrace a b1 b2).score = -1 ∧ (alignTrace a b1 b2).firstPos = -1 ∧
      (alignTrace a b1 b2).align1 = [] ∧ (alignTrace a b1 b2).align2 = [] ∧
      ((runA a 0 (iterCount a) (initA a)).minscoreidx < 0 →
        (alignTrace a b1 b2).buf1 = b1 ∧ (alignTrace a b1 b2).buf2 = b2)) ∨
    (∃ (flat : List Nat) (fuel : Nat) (ms i : Int) (state : Nat)
        (e1 e2 : List Nat) (xf : Int),
      0 ≤ ms ∧
      walkAux a.bs a.truth a.target flat fuel (ms - 2) i a.targetLen
        (ms - a.targetLen) state [] [] = some (WalkRes.done e1 e2 xf) ∧
      (alignTrace a b1 b2).score =
        finalScore (runA a 0 (iterCount a) (initA a)).minscore ∧
      (alignTrace a b1 b2).firstPos = xf ∧
      (alignTrace a b1 b2).align1 = e1 ∧
      (alignTrace a b1 b2).align2 = e2 ∧
      (alignTrace a b1 b2).buf1 = overlayBuf b1 (e1 ++ [0]) ∧
      (alignTrace a b1 b2).buf2 = overlayBuf b2 (e2 ++ [0])) := by
  simp only [alignTrace]
  split
  next hidx =>
    left
    exact ⟨rfl, rfl, rfl, rfl, fun _ => ⟨rfl, rfl⟩⟩
  next hidx =>
    split
    next hbound =>
      left
      exact ⟨rfl, rfl, rfl, rfl, fun _ => ⟨rfl, rfl⟩⟩
    next hbound =>
      split
      next e1 e2 xf heq =>
        right
        refine ⟨(runA a 0 (iterCount a) (initA a)).bps.flatten,
          ((runA a 0 (iterCount a) (initA a)).minscoreidx).toNat + 2,
          (runA a 0 (iterCount a) (initA a)).minscoreidx,
          (runA a 0 (iterCount a) (initA a)).minscoreidx / 2 - a.targetLen,
          _, e1, e2, xf, by omega, heq, rfl, rfl, rfl, rfl, rfl, rfl⟩
      next e1 e2 heq =>
        left
        exact ⟨rfl, rfl, rfl, rfl, fun h => absurd h hidx⟩
      next heq =>
        left
        exact ⟨rfl, rfl, rfl, rfl, fun _ => ⟨rfl, rfl⟩⟩

theorem alignTrace_done_spec (a : Args) (b1 b2 : List Nat)
    (h45t : ¬ gapLabel ∈ a.truth) (h45q : ¬ gapLabel ∈ a.target)
    (hok : 0 ≤ (alignTrace a b1 b2).score) :
    0 ≤ (alignTrace a b1 b2).firstPos ∧
    stripGaps (alignTrace a b1 b2).align2 = a.target ∧
    stripGaps (alignTrace a b1 b2).align1 =
      truthSeg a.truth (alignTrace a b1 b2).firstPos
        ((alignTrace a b1 b2).firstPos +
          ((stripGaps (alignTrace a b1 b2).align1).length : Int)) ∧
    (alignTrace a b1 b2).align1.length = (alignTrace a b1 b2).align2.length := by
  rcases alignTrace_shape a b1 b2 with ⟨hs, _⟩ | ⟨flat, fuel, ms, i, state, e1, e2, xf,
    hms, hw, hsc, hfp, ha1, ha2, _, _⟩
  · omega
  · have hspec := walkAux_done_spec a.bs a.truth a.target flat h45t h45q fuel (ms - 2) i
      a.targetLen (ms - a.targetLen) state [] [] e1 e2 xf hw (by ring)
      (by omega) (le_of_eq rfl)
    obtain ⟨c1, c2, c3, c4, c5⟩ := hspec
    have htk : a.target.take a.targetLen = a.target := List.take_length a.target
    rw [htk] at c3
    simp only [stripGaps, List.filter_nil, List.append_nil] at c3 c4
    have hlen : (stripGaps e1).length = (ms - (a.targetLen : Int) - xf).toNat := by
      rw [show stripGaps e1 = List.filter (fun c => decide (c ≠ gapLabel)) e1 from rfl] at *
      rw [c4]
      simp [truthSeg]
    refine ⟨by omega, ?_, ?_, ?_⟩
    · rw [ha2]
      exact c3
    · rw [ha1, hfp]
      rw [show (xf + ((stripGaps e1).length : Int)) = ms - (a.targetLen : Int) from by
        rw [hlen]; omega]
      exact c4
    · rw [ha1, ha2]
      simp only [List.length_nil] at c5
      omega

set_option maxRecDepth 100000 in
set_option maxHeartbeats 1000000 in
/-- Counterexample to C3: on the shape-valid input `exNegGap` (negative
`int8` gap penalties) the alignment overload succeeds with score `16` but
reports `first_pos = 20`, one past the end of the 19-byte truth, and the
gap-stripped truth alignment is the out-of-range read `[0]`, not the
claimed substring of the truth (which is empty from index 20). -/
theorem alignment_consistency_cex :
    0 ≤ (alignTrace exNegGap (zeroBuf 39) (zeroBuf 39)).score ∧
    (alignTrace exNegGap (zeroBuf 39) (zeroBuf 39)).firstPos = 20 ∧
    stripGaps (alignTrace exNegGap (zeroBuf 39) (zeroBuf 39)).align1 ≠
      (exNegGap.truth.drop 20).take
        (stripGaps (alignTrace exNegGap (zeroBuf 39) (zeroBuf 39)).align1).length := by
  refine ⟨by decide, by decide, by decide⟩

/-- C3 (amended): whenever the alignment overload succeeds, stripping the
gap characters from the query alignment yields the whole target, and
`first_pos` is non-negative; and whenever `first_pos` plus the number of
non-gap truth characters emitted stays within the truth, stripping the gaps
from the truth alignment yields exactly that contiguous substring of the
truth starting at `first_pos`.  (The original claim is false when the
backtrace walks past the end of the truth, as `alignment_consistency_cex`
shows; no gap character may occur in the input sequences.) -/
theorem alignment_consistency_amended (a : Args) (b1 b2 : List Nat)
    (h45t : ¬ gapLabel ∈ a.truth) (h45q : ¬ gapLabel ∈ a.target)
    (hok : 0 ≤ (alignTrace a b1 b2).score) :
    stripGaps (alignTrace a b1 b2).align2 = a.target ∧
    0 ≤ (alignTrace a b1 b2).firstPos ∧
    ((alignTrace a b1 b2).firstPos +
        ((stripGaps (alignTrace a b1 b2).align1).length : Int) ≤ (a.truth.length : Int) →
      stripGaps (alignTrace a b1 b2).align1 =
        (a.truth.drop (alignTrace a b1 b2).firstPos.toNat).take
          (stripGaps (alignTrace a b1 b2).align1).length) := by
  obtain ⟨c1, c2, c3, _⟩ := alignTrace_done_spec a b1 b2 h45t h45q hok
  refine ⟨c2, c1, fun hin => ?_⟩
  rw [truthSeg_eq_drop_take a.truth _ _ c1 (by omega) hin] at c3
  rw [show ((alignTrace a b1 b2).firstPos +
      ((stripGaps (alignTrace a b1 b2).align1).length : Int) -
      (alignTrace a b1 b2).firstPos).toNat =
      (stripGaps (alignTrace a b1 b2).align1).length from by omega] at c3
  exact c3

set_option maxRecDepth 100000 in
set_option maxHeartbeats 1000000 in
/-- Witness for the amended C3 at the repository's fourth test case. -/
theorem alignment_consistency_amended_witness :
    ((¬ gapLabel ∈ hmmTest4.truth) ∧ (¬ gapLabel ∈ hmmTest4.target) ∧
      0 ≤ (alignTrace hmmTest4 (zeroBuf 39) (zeroBuf 39)).score) ∧
    (stripGaps (alignTrace hmmTest4 (zeroBuf 39) (zeroBuf 39)).align2 = hmmTest4.target ∧
      0 ≤ (alignTrace hmmTest4 (zeroBuf 39) (zeroBuf 39)).firstPos ∧
      ((alignTrace hmmTest4 (zeroBuf 39) (zeroBuf 39)).firstPos +
          ((stripGaps (alignTrace hmmTest4 (zeroBuf 39) (zeroBuf 39)).align1).length : Int) ≤
            (hmmTest4.truth.length : Int) →
        stripGaps (alignTrace hmmTest4 (zeroBuf 39) (zeroBuf 39)).align1 =
          (hmmTest4.truth.drop (alignTrace hmmTest4 (zeroBuf 39) (zeroBuf 39)).firstPos.toNat).take
            (stripGaps (alignTrace hmmTest4 (zeroBuf 39) (zeroBuf 39)).align1).length)) :=
  ⟨⟨by decide, by decide, by decide⟩,
    alignment_consistency_amended hmmTest4 (zeroBuf 39) (zeroBuf 39)
      (by decide) (by decide) (by decide)⟩

set_option maxRecDepth 1000000 in
set_option maxHeartbeats 4000000 in
/-- Counterexample to C6: the repository's own fifth test case succeeds
with fifteen gap characters in the query alignment, which is not less than
the band size `8`. -/
theorem band_gap_bound_cex :
    0 ≤ (alignTrace hmmTest5 (zeroBuf 61) (zeroBuf 61)).score ∧
    countGaps (alignTrace hmmTest5 (zeroBuf 61) (zeroBuf 61)).align2 = 15 ∧
    hmmTest5.bs = 8 ∧
    ¬ countGaps (alignTrace hmmTest5 (zeroBuf 61) (zeroBuf 61)).align2 < hmmTest5.bs := by
  refine ⟨by decide, by decide, by decide, by decide⟩

/-- C6 (amended): the gap counts of a successful alignment are not bounded
by the band size (see `band_gap_bound_cex`); what holds is the exact
accounting — the two alignment strings have equal length, the query
alignment consists of the whole target plus its gaps, and the truth
alignment of its non-gap truth characters plus its gaps. -/
theorem band_gap_accounting (a : Args) (b1 b2 : List Nat)
    (h45t : ¬ gapLabel ∈ a.truth) (h45q : ¬ gapLabel ∈ a.target)
    (hok : 0 ≤ (alignTrace a b1 b2).score) :
    (alignTrace a b1 b2).align1.length = (alignTrace a b1 b2).align2.length ∧
    countGaps (alignTrace a b1 b2).align2 + a.target.length =
      (alignTrace a b1 b2).align2.length ∧
    countGaps (alignTrace a b1 b2).align1 +
      (stripGaps (alignTrace a b1 b2).align1).length =
      (alignTrace a b1 b2).align1.length := by
  obtain ⟨c1, c2, c3, c4⟩ := alignTrace_done_spec a b1 b2 h45t h45q hok
  refine ⟨c4, ?_, countGaps_split _⟩
  have := countGaps_split (alignTrace a b1 b2).align2
  rw [c2] at this
  exact this

set_option maxRecDepth 100000 in
set_option maxHeartbeats 1000000 in
/-- Witness for the amended C6 at the repository's first test case. -/
theorem band_gap_accounting_witness :
    ((¬ gapLabel ∈ hmmTest1.truth) ∧ (¬ gapLabel ∈ hmmTest1.target) ∧
      0 ≤ (alignTrace hmmTest1 (zeroBuf 39) (zeroBuf 39)).score) ∧
    ((alignTrace hmmTest1 (zeroBuf 39) (zeroBuf 39)).align1.length =
        (alignTrace hmmTest1 (zeroBuf 39) (zeroBuf 39)).align2.length ∧
      countGaps (alignTrace hmmTest1 (zeroBuf 39) (zeroBuf 39)).align2 +
          hmmTest1.target.length =
        (alignTrace hmmTest1 (zeroBuf 39) (zeroBuf 39)).align2.length ∧
      countGaps (alignTrace hmmTest1 (zeroBuf 39) (zeroBuf 39)).align1 +
          (stripGaps (alignTrace hmmTest1 (zeroBuf 39) (zeroBuf 39)).align1).length =
        (alignTrace hmmTest1 (zeroBuf 39) (zeroBuf 39)).align1.length) :=
  ⟨⟨by decide, by decide, by decide⟩,
    band_gap_accounting hmmTest1 (zeroBuf 39) (zeroBuf 39)
      (by decide) (by decide) (by decide)⟩

set_option maxRecDepth 100000 in
set_option maxHeartbeats 1000000 in
/-- Counterexample to C4: on the shape-valid input `exWalkFail` the
backtrace hits a negative index after having already written characters
into the caller's buffers, so although the call returns `-1` with
`first_pos = -1`, the first buffer now starts with `'A'` (65): it is not
null-terminated at index 0. -/
theorem overflow_handling_cex :
    (alignTrace exWalkFail (zeroBuf 39) (zeroBuf 39)).score = -1 ∧
    (alignTrace exWalkFail (zeroBuf 39) (zeroBuf 39)).firstPos = -1 ∧
    (alignTrace exWalkFail (zeroBuf 39) (zeroBuf 39)).buf1.getD 0 0 = 65 ∧
    (alignTrace exWalkFail (zeroBuf 39) (zeroBuf 39)).buf1.getD 0 0 ≠ 0 := by
  refine ⟨by decide, by decide, by decide, by decide⟩

/-- C4 (amended): every overflow exit of the alignment overload returns
exactly `-1` with `first_pos = -1` and empty alignment strings, and when
the overflow is the never-updated exit-column minimum the caller's buffers
are left untouched — they are not written to, and in particular not
null-terminated by the call (and after a failed backtrace they may hold
partial output, as `overflow_handling_cex` shows). -/
theorem overflow_handling_amended (a : Args) (b1 b2 : List Nat)
    (hbs : 1 ≤ a.bs) (htr : ∀ c ∈ a.truth, c < 65536)
    (hfail : (alignTrace a b1 b2).score < 0) :
    (alignTrace a b1 b2).score = -1 ∧
    (alignTrace a b1 b2).firstPos = -1 ∧
    (alignTrace a b1 b2).align1 = [] ∧
    (alignTrace a b1 b2).align2 = [] ∧
    ((runA a 0 (iterCount a) (initA a)).minscoreidx < 0 →
      (alignTrace a b1 b2).buf1 = b1 ∧ (alignTrace a b1 b2).buf2 = b2) := by
  rcases alignTrace_shape a b1 b2 with ⟨h1, h2, h3, h4, h5⟩ | ⟨flat, fuel, ms, i, state,
    e1, e2, xf, hms, hw, hsc, _, _, _, _, _⟩
  · exact ⟨h1, h2, h3, h4, h5⟩
  · exfalso
    have hrun := runA_strip a (iterCount a) 0 (initA a) hbs (initA_wf a hbs htr)
    have hlo := hrun.2.msLo
    rw [hsc] at hfail
    simp only [finalScore, bitmaskC] at hfail
    omega

set_option maxRecDepth 100000 in
set_option maxHeartbeats 1000000 in
/-- Witness for the amended C4 at the failing-backtrace input. -/
theorem overflow_handling_amended_witness :
    ((1 ≤ exWalkFail.bs ∧ (∀ c ∈ exWalkFail.truth, c < 65536)) ∧
      (alignTrace exWalkFail (zeroBuf 39) (zeroBuf 39)).score < 0) ∧
    ((alignTrace exWalkFail (zeroBuf 39) (zeroBuf 39)).score = -1 ∧
      (alignTrace exWalkFail (zeroBuf 39) (zeroBuf 39)).firstPos = -1 ∧
      (alignTrace exWalkFail (zeroBuf 39) (zeroBuf 39)).align1 = [] ∧
      (alignTrace exWalkFail (zeroBuf 39) (zeroBuf 39)).align2 = [] ∧
      ((runA exWalkFail 0 (iterCount exWalkFail) (initA exWalkFail)).minscoreidx < 0 →
        (alignTrace exWalkFail (zeroBuf 39) (zeroBuf 39)).buf1 = zeroBuf 39 ∧
        (alignTrace exWalkFail (zeroBuf 39) (zeroBuf 39)).buf2 = zeroBuf 39)) :=
  ⟨⟨⟨by decide, by decide⟩, by decide⟩,
    overflow_handling_amended exWalkFail (zeroBuf 39) (zeroBuf 39)
      (by decide) (by decide) (by decide)⟩

/-! ## The derived `_truthnqual` vector tracks the truth window -/

theorem tnq_init (a : Args) (hbs : 1 ≤ a.bs) :
    (initS a).truthwin.length = a.bs ∧ (initS a).truthnqual.length = a.bs ∧
    ∀ j, j < a.bs → (initS a).truthnqual.getD j 0 =
      (if (initS a).truthwin.getD j 0 = 78 then nScore else infScore) := by
  have hlw : (initS a).truthwin.length = a.bs := length_vLoadReverse _ _
  refine ⟨hlw, ?_, ?_⟩
  · exact length_vZip _ _ _ (length_vZip _ _ _
      (length_vZip _ _ _ hlw (length_vBroadcast _ _)) (length_vBroadcast _ _))
      (length_vBroadcast _ _)
  · intro j hj
    have l78 : (vBroadcast a.bs 78).length = a.bs := length_vBroadcast _ _
    have lns : (vBroadcast a.bs (toInt16 nScoreMInf)).length = a.bs := length_vBroadcast _ _
    have linf : (vBroadcast a.bs (infScore : Int)).length = a.bs := length_vBroadcast _ _
    have lcmp : (vCmpeq (initS a).truthwin (vBroadcast a.bs 78)).length = a.bs := by
      rw [vCmpeq]
      exact length_vZip _ _ _ hlw l78
    have land : (vAnd (vCmpeq (initS a).truthwin (vBroadcast a.bs 78))
        (vBroadcast a.bs (toInt16 nScoreMInf))).length = a.bs := by
      rw [vAnd]
      exact length_vZip _ _ _ lcmp lns
    have h1 : (initS a).truthnqual.getD j 0 =
        add16 (and16 (cmpeq16 ((initS a).truthwin.getD j 0)
          ((vBroadcast a.bs 78).getD j 0))
          ((vBroadcast a.bs (toInt16 nScoreMInf)).getD j 0))
          ((vBroadcast a.bs (infScore : Int)).getD j 0) := by
      show (vAdd (vAnd (vCmpeq (initS a).truthwin (vBroadcast a.bs 78))
          (vBroadcast a.bs (toInt16 nScoreMInf))) (vBroadcast a.bs (infScore : Int))).getD j 0 = _
      rw [vAdd, vZip, getD_zipWith_lt _ _ _ j (by omega) (by omega)]
      rw [vAnd, vZip, getD_zipWith_lt _ _ _ j (by omega) (by omega)]
      rw [vCmpeq, vZip, getD_zipWith_lt _ _ _ j (by omega) (by omega)]
    rw [h1, vBroadcast, vBroadcast, vBroadcast, getD_replicate_lt _ _ _ hj,
      getD_replicate_lt _ _ _ hj, getD_replicate_lt _ _ _ hj]
    by_cases h78 : (initS a).truthwin.getD j 0 = 78
    · rw [h78, if_pos rfl]
      decide
    · rw [if_neg h78, cmpeq16, if_neg (by
        intro hc
        apply h78
        rw [hc]
        decide)]
      decide

theorem tnq_stepEven (a : Args) (k : Nat) (st : SState) :
    (stepEvenS a k st).truthwin = st.truthwin ∧
    (stepEvenS a k st).truthnqual = st.truthnqual :=
  ⟨rfl, rfl⟩

theorem tnq_stepOdd (a : Args) (k : Nat) (st : SState)
    (hbs : 1 ≤ a.bs) (htr : ∀ c ∈ a.truth, c < 65536)
    (h : st.truthwin.length = a.bs ∧ st.truthnqual.length = a.bs ∧
      ∀ j, j < a.bs → st.truthnqual.getD j 0 =
        (if st.truthwin.getD j 0 = 78 then nScore else infScore)) :
    (stepOddS a k st).truthwin.length = a.bs ∧
    (stepOddS a k st).truthnqual.length = a.bs ∧
    ∀ j, j < a.bs → (stepOddS a k st).truthnqual.getD j 0 =
      (if (stepOddS a k st).truthwin.getD j 0 = 78 then nScore else infScore) := by
  obtain ⟨hlw, hln, hj⟩ := h
  have htw : (stepOddS a k st).truthwin =
      vInsert (vShiftDown st.truthwin)
        ((if a.bs + k < a.truthLen then a.truth.getD (a.bs + k) 0 else 78 : Nat) : Int)
        (a.bs - 1) := rfl
  have htn : (stepOddS a k st).truthnqual =
      vInsert (vShiftDown st.truthnqual)
        (if (if a.bs + k < a.truthLen then a.truth.getD (a.bs + k) 0 else 78 : Nat) = 78
          then (nScore : Int) else (infScore : Int))
        (a.bs - 1) := rfl
  have hBlt : (if a.bs + k < a.truthLen then a.truth.getD (a.bs + k) 0 else 78 : Nat) < 65536 := by
    split
    · exact getD_lt_of_forall a.truth htr _
    · omega
  have hlw2 : (vShiftDown st.truthwin).length = a.bs := length_vShiftDown _ hlw hbs
  have hln2 : (vShiftDown st.truthnqual).length = a.bs := length_vShiftDown _ hln hbs
  refine ⟨by rw [htw, vInsert, List.length_set]; exact hlw2,
    by rw [htn, vInsert, List.length_set]; exact hln2, ?_⟩
  intro j hjb
  by_cases hlast : j = a.bs - 1
  · subst hlast
    rw [htw, htn, vInsert, vInsert, getD_set_eq _ _ _ (by omega),
      getD_set_eq _ _ _ (by omega), ofInt16_natCast _ hBlt]
    by_cases hB : (if a.bs + k < a.truthLen then a.truth.getD (a.bs + k) 0 else 78 : Nat) = 78
    · rw [if_pos hB, hB, if_pos rfl]
      decide
    · rw [if_neg hB, if_neg hB]
      decide
  · rw [htw, htn, vInsert, vInsert, getD_set_ne _ _ _ _ hlast, getD_set_ne _ _ _ _ hlast]
    rw [vShiftDown, vShiftDown, getD_append_lt _ _ _ (by
        rw [List.length_tail, hln]
        omega),
      getD_append_lt _ _ _ (by
        rw [List.length_tail, hlw]
        omega),
      getD_tail0, getD_tail0]
    exact hj (j + 1) (by omega)

theorem runS_tnq (a : Args) (hbs : 1 ≤ a.bs) (htr : ∀ c ∈ a.truth, c < 65536) :
    ∀ (n k : Nat) (st : SState),
      (st.truthwin.length = a.bs ∧ st.truthnqual.length = a.bs ∧
        ∀ j, j < a.bs → st.truthnqual.getD j 0 =
          (if st.truthwin.getD j 0 = 78 then nScore else infScore)) →
      ((runS a k n st).truthwin.length = a.bs ∧
        (runS a k n st).truthnqual.length = a.bs ∧
        ∀ j, j < a.bs → (runS a k n st).truthnqual.getD j 0 =
          (if (runS a k n st).truthwin.getD j 0 = 78 then nScore else infScore)) := by
  intro n
  induction n with
  | zero => intro k st h; exact h
  | succ m ih =>
    intro k st h
    have hstep : ((stepS a k st).truthwin.length = a.bs ∧
        (stepS a k st).truthnqual.length = a.bs ∧
        ∀ j, j < a.bs → (stepS a k st).truthnqual.getD j 0 =
          (if (stepS a k st).truthwin.getD j 0 = 78 then nScore else infScore)) := by
      rw [stepS]
      apply tnq_stepOdd a k _ hbs htr
      rw [(tnq_stepEven a k st).1, (tnq_stepEven a k st).2]
      exact h
    exact ih (k + 1) (stepS a k st) hstep

set_option maxRecDepth 100000 in
set_option maxHeartbeats 1000000 in
/-- Counterexample to C5: on `exNTruth` (an `'N'` at truth position 9),
after two iterations of the main loop the truth window holds `'N'` (78) in
lane 7, and `_truthnqual` holds the small constant `n_score` there — not
`INFINITY` as the claim states. -/
theorem truthnqual_cex :
    vExtract exNTruth.bs (runS exNTruth 0 2 (initS exNTruth)).truthwin 7 = 78 ∧
    vExtract exNTruth.bs (runS exNTruth 0 2 (initS exNTruth)).truthnqual 7 = nScore ∧
    vExtract exNTruth.bs (runS exNTruth 0 2 (initS exNTruth)).truthnqual 7 ≠ infScore := by
  refine ⟨by decide, by decide, by decide⟩

/-- C5 (amended): at every point of the band recurrence, `_truthnqual`
equals the small fixed constant `n_score` in every lane whose truth-window
base is `'N'` and `INFINITY` in every other lane — the opposite of the
claimed orientation (see `truthnqual_cex`) — and taking the minimum with it
caps the signed emission penalty at `n_score` in the `'N'` lanes. -/
theorem truthnqual_nscore (a : Args) (n : Nat)
    (hbs : 1 ≤ a.bs) (htr : ∀ c ∈ a.truth, c < 65536) (i : Nat) :
    vExtract a.bs (runS a 0 n (initS a)).truthnqual i =
      (if vExtract a.bs (runS a 0 n (initS a)).truthwin i = 78 then nScore else infScore) ∧
    ∀ E : Vec, E.length = a.bs →
      vExtract a.bs (runS a 0 n (initS a)).truthwin i = 78 →
      toInt16 (vExtract a.bs (vMin E (runS a 0 n (initS a)).truthnqual) i) ≤ (nScore : Int) := by
  obtain ⟨hlw, hln, hlane⟩ := runS_tnq a hbs htr n 0 (initS a) (tnq_init a hbs)
  have hidx : min i (a.bs - 1) < a.bs := by omega
  have h1 : vExtract a.bs (runS a 0 n (initS a)).truthnqual i =
      (if vExtract a.bs (runS a 0 n (initS a)).truthwin i = 78 then nScore else infScore) := by
    rw [vExtract, vExtract]
    exact hlane _ hidx
  refine ⟨h1, ?_⟩
  intro E hE h78
  have h2 : vExtract a.bs (vMin E (runS a 0 n (initS a)).truthnqual) i =
      smin16 (E.getD (min i (a.bs - 1)) 0)
        ((runS a 0 n (initS a)).truthnqual.getD (min i (a.bs - 1)) 0) := by
    rw [vExtract, vMin, vZip, getD_zipWith_lt _ _ _ _ (by omega) (by omega)]
  have h3 : (runS a 0 n (initS a)).truthnqual.getD (min i (a.bs - 1)) 0 = nScore := by
    simp only [vExtract] at h1 h78
    rw [h1, if_pos h78]
  rw [h2, h3]
  calc toInt16 (smin16 (E.getD (min i (a.bs - 1)) 0) nScore) ≤ toInt16 nScore :=
        toInt16_smin16_le_right _ _
    _ ≤ (nScore : Int) := by decide

set_option maxRecDepth 100000 in
set_option maxHeartbeats 1000000 in
/-- Witness for the amended C5 at `exNTruth`, two loop iterations, lane 7. -/
theorem truthnqual_nscore_witness :
    ((1 ≤ exNTruth.bs ∧ ∀ c ∈ exNTruth.truth, c < 65536)) ∧
    (vExtract exNTruth.bs (runS exNTruth 0 2 (initS exNTruth)).truthnqual 7 =
        (if vExtract exNTruth.bs (runS exNTruth 0 2 (initS exNTruth)).truthwin 7 = 78
          then nScore else infScore) ∧
      ∀ E : Vec, E.length = exNTruth.bs →
        vExtract exNTruth.bs (runS exNTruth 0 2 (initS exNTruth)).truthwin 7 = 78 →
        toInt16 (vExtract exNTruth.bs
          (vMin E (runS exNTruth 0 2 (initS exNTruth)).truthnqual) 7) ≤ (nScore : Int)) :=
  ⟨⟨by decide, by decide⟩, truthnqual_nscore exNTruth 2 (by decide) (by decide) 7⟩

/-! ## Back-pointer packing and tag resets, lane by lane -/

theorem getD_vOr (a b : Vec) (j : Nat) (ha : j < a.length) (hb : j < b.length) :
    (vOr a b).getD j 0 = or16 (a.getD j 0) (b.getD j 0) := by
  rw [vOr, vZip]
  exact getD_zipWith_lt or16 a b j ha hb

theorem getD_vAnd (a b : Vec) (j : Nat) (ha : j < a.length) (hb : j < b.length) :
    (vAnd a b).getD j 0 = and16 (a.getD j 0) (b.getD j 0) := by
  rw [vAnd, vZip]
  exact getD_zipWith_lt and16 a b j ha hb

theorem getD_vAndnot (a b : Vec) (j : Nat) (ha : j < a.length) (hb : j < b.length) :
    (vAndnot a b).getD j 0 = andnot16 (a.getD j 0) (b.getD j 0) := by
  rw [vAndnot, vZip]
  exact getD_zipWith_lt andnot16 a b j ha hb

theorem getD_vBroadcast (bs : Nat) (z : Int) (j : Nat) (hj : j < bs) :
    (vBroadcast bs z).getD j 0 = ofInt16 z := by
  rw [vBroadcast]
  exact getD_replicate_lt _ _ _ hj

theorem getD_vShiftLeftBits (k : Nat) (v : Vec) (j : Nat) (h : j < v.length) :
    (vShiftLeftBits k v).getD j 0 = v.getD j 0 * 2 ^ k % 65536 := by
  rw [vShiftLeftBits]
  exact getD_map_lt _ _ _ h

theorem getD_vShiftRightBits1 (v : Vec) (j : Nat) (h : j < v.length) :
    (vShiftRightBits1 v).getD j 0 = v.getD j 0 / 2 := by
  rw [vShiftRightBits1]
  exact getD_map_lt _ _ _ h

theorem bpPack_lane (bs : Nat) (m i d : Vec) (j : Nat) (hj : j < bs)
    (hm : m.length = bs) (hi : i.length = bs) (hd : d.length = bs) :
    (bpPack bs m i d).getD j 0 =
      m.getD j 0 % 4 + i.getD j 0 % 4 * 4 + d.getD j 0 % 4 * 64 := by
  have l3 : (vBroadcast bs 3).length = bs := length_vBroadcast _ _
  have lam : (vAnd (vBroadcast bs 3) m).length = bs := by
    rw [vAnd]
    exact length_vZip _ _ _ l3 hm
  have lai : (vAnd (vBroadcast bs 3) i).length = bs := by
    rw [vAnd]
    exact length_vZip _ _ _ l3 hi
  have lad : (vAnd (vBroadcast bs 3) d).length = bs := by
    rw [vAnd]
    exact length_vZip _ _ _ l3 hd
  have lsi : (vShiftLeftBits (2 * insertLabel) (vAnd (vBroadcast bs 3) i)).length = bs := by
    rw [vShiftLeftBits, List.length_map]
    exact lai
  have lsd : (vShiftLeftBits (2 * deleteLabel) (vAnd (vBroadcast bs 3) d)).length = bs := by
    rw [vShiftLeftBits, List.length_map]
    exact lad
  have lo1 : (vOr (vAnd (vBroadcast bs 3) m)
      (vShiftLeftBits (2 * insertLabel) (vAnd (vBroadcast bs 3) i))).length = bs := by
    rw [vOr]
    exact length_vZip _ _ _ lam lsi
  simp only [bpPack]
  rw [getD_vOr _ _ _ (by omega) (by omega), getD_vOr _ _ _ (by omega) (by omega),
    getD_vShiftLeftBits _ _ _ (by omega), getD_vShiftLeftBits _ _ _ (by omega),
    getD_vAnd _ _ _ (by omega) (by omega), getD_vAnd _ _ _ (by omega) (by omega),
    getD_vAnd _ _ _ (by omega) (by omega),
    getD_vBroadcast _ _ _ hj, show ofInt16 3 = 3 from by decide,
    land_three_eq_mod, land_three_eq_mod, land_three_eq_mod]
  rw [show (2 : Nat) ^ (2 * insertLabel) = 4 from by decide,
    show (2 : Nat) ^ (2 * deleteLabel) = 64 from by decide]
  rw [Nat.mod_eq_of_lt (show i.getD j 0 % 4 * 4 < 65536 by omega),
    Nat.mod_eq_of_lt (show d.getD j 0 % 4 * 64 < 65536 by omega)]
  generalize hA : m.getD j 0 % 4 = A
  generalize hB : i.getD j 0 % 4 = B
  generalize hC : d.getD j 0 % 4 = C
  have hA4 : A < 4 := by omega
  have hB4 : B < 4 := by omega
  have hC4 : C < 4 := by omega
  interval_cases A <;> interval_cases B <;> interval_cases C <;> decide

theorem setTagM_lane (bs : Nat) (m : Vec) (j : Nat) (hj : j < bs) (hm : m.length = bs) :
    (setTagM bs m).getD j 0 % 4 = 0 := by
  rw [setTagM, getD_vAndnot _ _ _ (by rw [length_vBroadcast]; omega) (by omega),
    getD_vBroadcast _ _ _ hj, show ofInt16 3 = 3 from by decide]
  exact andnot3_tag0 _

theorem setTagI_lane (bs : Nat) (i : Vec) (j : Nat) (hj : j < bs) (hi : i.length = bs) :
    (setTagI bs i).getD j 0 % 4 = 1 := by
  rw [setTagI, getD_vOr _ _ _
      (by
        rw [vAndnot]
        rw [length_vZip _ _ _ (length_vBroadcast bs 3) hi]
        omega)
      (by
        rw [vShiftRightBits1, List.length_map, length_vBroadcast]
        omega),
    getD_vAndnot _ _ _ (by rw [length_vBroadcast]; omega) (by omega),
    getD_vShiftRightBits1 _ _ (by rw [length_vBroadcast]; omega),
    getD_vBroadcast _ _ _ hj,
    show ofInt16 3 = 3 from by decide]
  rw [or16]
  exact lor_mod4 _ 1 (andnot3_tag0 _) (by omega)

theorem setTagD_lane (bs : Nat) (d : Vec) (j : Nat) (hj : j < bs) (hd : d.length = bs) :
    (setTagD bs d).getD j 0 % 4 = 3 := by
  rw [setTagD, getD_vOr _ _ _
      (by
        rw [vAndnot]
        rw [length_vZip _ _ _ (length_vBroadcast bs 3) hd]
        omega)
      (by rw [length_vBroadcast]; omega),
    getD_vAndnot _ _ _ (by rw [length_vBroadcast]; omega) (by omega),
    getD_vBroadcast _ _ _ hj,
    show ofInt16 3 = 3 from by decide]
  rw [or16]
  exact lor_mod4 _ 3 (andnot3_tag0 _) (by omega)

/-- C7: each half step of the alignment overload's main loop appends to the
back-pointer store exactly the vector `(M & 3) | ((I & 3) << 2) | ((D & 3) << 6)`
built from the just-computed state vectors (lane value
`M%4 + (I%4)·2² + (D%4)·2⁶`), and the tag resets applied right after the
write set the low two bits of the `M`, `I` and `D` vectors to the constants
`0`, `1` and `3` in every lane. -/
theorem backpointer_pack_tags (a : Args) (k : Nat) (st : AState)
    (m i d : Vec) (j : Nat) (hj : j < a.bs)
    (hm : m.length = a.bs) (hi : i.length = a.bs) (hd : d.length = a.bs) :
    (stepEvenA a k st).bps = st.bps ++
      [bpPack a.bs (stepEvenACore a k st).m1 (stepEvenACore a k st).i1
        (stepEvenACore a k st).d1] ∧
    (stepOddA a k st).bps = st.bps ++
      [bpPack a.bs (stepOddACore a k st).m2 (stepOddACore a k st).i2
        (stepOddACore a k st).d2] ∧
    (bpPack a.bs m i d).getD j 0 =
      m.getD j 0 % 4 + i.getD j 0 % 4 * 4 + d.getD j 0 % 4 * 64 ∧
    (setTagM a.bs m).getD j 0 % 4 = matchLabel ∧
    (setTagI a.bs i).getD j 0 % 4 = insertLabel ∧
    (setTagD a.bs d).getD j 0 % 4 = deleteLabel :=
  ⟨rfl, rfl, bpPack_lane a.bs m i d j hj hm hi hd,
    setTagM_lane a.bs m j hj hm, setTagI_lane a.bs i j hj hi, setTagD_lane a.bs d j hj hd⟩

/-- Witness for C7 at concrete vectors and the first test's initial state. -/
theorem backpointer_pack_tags_witness :
    ((0 : Nat) < hmmTest1.bs ∧ (vBroadcast 8 5).length = hmmTest1.bs ∧
      (vBroadcast 8 6).length = hmmTest1.bs ∧ (vBroadcast 8 7).length = hmmTest1.bs) ∧
    ((stepEvenA hmmTest1 0 (initA hmmTest1)).bps = (initA hmmTest1).bps ++
        [bpPack hmmTest1.bs (stepEvenACore hmmTest1 0 (initA hmmTest1)).m1
          (stepEvenACore hmmTest1 0 (initA hmmTest1)).i1
          (stepEvenACore hmmTest1 0 (initA hmmTest1)).d1] ∧
      (stepOddA hmmTest1 0 (initA hmmTest1)).bps = (initA hmmTest1).bps ++
        [bpPack hmmTest1.bs (stepOddACore hmmTest1 0 (initA hmmTest1)).m2
          (stepOddACore hmmTest1 0 (initA hmmTest1)).i2
          (stepOddACore hmmTest1 0 (initA hmmTest1)).d2] ∧
      (bpPack hmmTest1.bs (vBroadcast 8 5) (vBroadcast 8 6) (vBroadcast 8 7)).getD 0 0 =
        (vBroadcast 8 5).getD 0 0 % 4 + (vBroadcast 8 6).getD 0 0 % 4 * 4 +
          (vBroadcast 8 7).getD 0 0 % 4 * 64 ∧
      (setTagM hmmTest1.bs (vBroadcast 8 5)).getD 0 0 % 4 = matchLabel ∧
      (setTagI hmmTest1.bs (vBroadcast 8 6)).getD 0 0 % 4 = insertLabel ∧
      (setTagD hmmTest1.bs (vBroadcast 8 7)).getD 0 0 % 4 = deleteLabel) :=
  ⟨⟨by decide, by decide, by decide, by decide⟩,
    backpointer_pack_tags hmmTest1 0 (initA hmmTest1) (vBroadcast 8 5) (vBroadcast 8 6)
      (vBroadcast 8 7) 0 (by decide) (by decide) (by decide) (by decide)⟩

set_option maxRecDepth 100000 in
set_option maxHeartbeats 1000000 in
/-- C8: on the repository's third test input (truth `ACGTACGAAGCTACGTACG`,
target `CGGC`, qualities 40, gap-open 90 except 70 at position 7,
gap-extend 1, `nuc_prior` 4, band size 8) both `align` overloads return 71,
and the alignment overload reports `first_pos = 5` with truth alignment
`CGAAGC` and query alignment `CG--GC`. -/
theorem test3_concrete :
    hmmTest3.bs = 8 ∧
    alignScore hmmTest3 = 71 ∧
    (alignTrace hmmTest3 (zeroBuf 39) (zeroBuf 39)).score = 71 ∧
    (alignTrace hmmTest3 (zeroBuf 39) (zeroBuf 39)).firstPos = 5 ∧
    (alignTrace hmmTest3 (zeroBuf 39) (zeroBuf 39)).align1 = [67, 71, 65, 65, 71, 67] ∧
    (alignTrace hmmTest3 (zeroBuf 39) (zeroBuf 39)).align2 = [67, 71, 45, 45, 71, 67] := by
  refine ⟨by decide, by decide, by decide, by decide, by decide, by decide⟩

end PairHMM
